import Mathlib

/-!
Verification of the datastore object-mapping layer (`gcp_pilot/datastore.py`).

This file shallowly embeds the core of `datastore.py`:

* the Python value universe used by the mapper (`Val`), with declared field
  types (`Ty`) as extracted by the ORM metaclass;
* `Metadata.from_dict` / `Metadata.to_dict` (record ↔ property-bag codec);
* `Manager._build_filter`, `_starts_with_operator` (lookup compilation);
* `Manager.query` / `filter` / `get` / `create` / `delete` and `_chunks`,
  together with a model of the external `google.cloud.datastore` client
  (keyed get/put, equality-filtered queries, key allocation, bulk delete).

Modelling conventions:
* Python exceptions become `Except Err`;
* Python `datetime` becomes `PyDateTime` together with executable models of
  `str(datetime)` and `datetime.fromisoformat`;
* machine-level detail that the source relies on is modelled explicitly and
  commented at the point of use (e.g. `datastore.Query.add_filter` mutates
  the query object in place and returns `self`, which the source's
  direct-filter path depends on).
-/

/-! ## Python `datetime` (naive), `str(datetime)` and `datetime.fromisoformat`

`Metadata.to_dict` leaves `datetime` values untouched (`_unbuild` returns the
value as-is), and `Metadata.from_dict` decodes a datetime field with
`klass.fromisoformat(str(value))`.  `str(d)` for a naive datetime is
`d.isoformat(sep=' ')`: `YYYY-MM-DD HH:MM:SS` followed by `.ffffff` when the
microsecond field is nonzero. -/

structure PyDateTime where
  year : Nat
  month : Nat
  day : Nat
  hour : Nat
  minute : Nat
  second : Nat
  microsecond : Nat
deriving DecidableEq, Repr

/-- Field-range validity of a naive `datetime`.  (Python additionally checks
the per-month day count; this looser bound only widens the set of values the
round-trip theorems quantify over.) -/
def PyDateTime.isValid (d : PyDateTime) : Bool :=
  1 ≤ d.year && d.year ≤ 9999 && 1 ≤ d.month && d.month ≤ 12 &&
  1 ≤ d.day && d.day ≤ 31 && d.hour ≤ 23 && d.minute ≤ 59 &&
  d.second ≤ 59 && d.microsecond ≤ 999999

/-- Two-digit zero-padded decimal rendering (`%02d` for values below 100). -/
def pad2 (n : Nat) : List Char :=
  [Nat.digitChar (n / 10 % 10), Nat.digitChar (n % 10)]

/-- Four-digit zero-padded decimal rendering (`%04d` for values below 10000). -/
def pad4 (n : Nat) : List Char :=
  [Nat.digitChar (n / 1000 % 10), Nat.digitChar (n / 100 % 10),
   Nat.digitChar (n / 10 % 10), Nat.digitChar (n % 10)]

/-- Six-digit zero-padded decimal rendering (`%06d` for values below 1000000). -/
def pad6 (n : Nat) : List Char :=
  [Nat.digitChar (n / 100000 % 10), Nat.digitChar (n / 10000 % 10),
   Nat.digitChar (n / 1000 % 10), Nat.digitChar (n / 100 % 10),
   Nat.digitChar (n / 10 % 10), Nat.digitChar (n % 10)]

/-- The character list of `str(d)` for a naive Python datetime `d`:
`isoformat` with a space separator, microseconds included only when nonzero. -/
def PyDateTime.strChars (d : PyDateTime) : List Char :=
  pad4 d.year ++ '-' :: pad2 d.month ++ '-' :: pad2 d.day ++
  ' ' :: pad2 d.hour ++ ':' :: pad2 d.minute ++ ':' :: pad2 d.second ++
  (if d.microsecond = 0 then [] else '.' :: pad6 d.microsecond)

/-- A decimal digit character to its value, else failure. -/
def pyDigit (c : Char) : Option Nat :=
  if c.isDigit then some (c.toNat - 48) else Option.none

def parse2 (a b : Char) : Option Nat := do
  let x ← pyDigit a; let y ← pyDigit b
  pure (10 * x + y)

def parse4 (a b c d : Char) : Option Nat := do
  let x ← parse2 a b; let y ← parse2 c d
  pure (100 * x + y)

def parse6 (a b c d e f : Char) : Option Nat := do
  let x ← parse2 a b; let y ← parse2 c d; let z ← parse2 e f
  pure (10000 * x + 100 * y + z)

/-- Model of `datetime.fromisoformat` on the formats this layer can produce:
a fixed-width `YYYY-MM-DD` date, optionally followed by a one-character
separator and a fixed-width `HH:MM:SS` time with an optional `.fff` or
`.ffffff` fraction.  Any other shape, and any out-of-range component, fails
(`ValueError` in Python). -/
def fromIsoChars : List Char → Option PyDateTime
  | [y1, y2, y3, y4, '-', a1, a2, '-', b1, b2] => do
    let y ← parse4 y1 y2 y3 y4
    let mo ← parse2 a1 a2
    let dd ← parse2 b1 b2
    if 1 ≤ y && 1 ≤ mo && mo ≤ 12 && 1 ≤ dd && dd ≤ 31 then
      pure ⟨y, mo, dd, 0, 0, 0, 0⟩
    else Option.none
  | y1 :: y2 :: y3 :: y4 :: '-' :: a1 :: a2 :: '-' :: b1 :: b2 :: _ ::
    h1 :: h2 :: ':' :: m1 :: m2 :: ':' :: s1 :: s2 :: rest => do
    let y ← parse4 y1 y2 y3 y4
    let mo ← parse2 a1 a2
    let dd ← parse2 b1 b2
    let hh ← parse2 h1 h2
    let mi ← parse2 m1 m2
    let ss ← parse2 s1 s2
    let us ← match rest with
      | [] => some 0
      | ['.', f1, f2, f3] => do let v ← parse2 f1 f2; let w ← pyDigit f3; pure ((10 * v + w) * 1000)
      | ['.', f1, f2, f3, f4, f5, f6] => parse6 f1 f2 f3 f4 f5 f6
      | _ => Option.none
    if 1 ≤ y && 1 ≤ mo && mo ≤ 12 && 1 ≤ dd && dd ≤ 31 &&
       hh ≤ 23 && mi ≤ 59 && ss ≤ 59 then
      pure ⟨y, mo, dd, hh, mi, ss, us⟩
    else Option.none
  | _ => Option.none

/-! ## Declared field types and the Python value universe

`ORM._extract_fields` hands `Metadata`/`Manager` an ordered mapping from field
name to declared type.  `Ty` is the closed universe of declared types the codec
dispatches on: scalars (`int`, `str`, `bool`), `datetime`, an `Enum` class
(identified by its member values), an `EmbeddedDocument` class (identified by
its own field schema), `typing.List[T]` and `typing.Dict[K, V]`.

`Val` is the universe of Python runtime values flowing through the codec.  A
`record` carries the schema of its own class (`value.Meta`), which is what
`_unbuild` consults when it serializes an embedded document. -/

inductive Ty where
  | int
  | str
  | bool
  | dt
  | enum (vals : List Int)
  | embedded (schema : List (String × Ty))
  | listOf (t : Ty)
  | dictOf (k v : Ty)
deriving Repr

inductive Val where
  | none
  | int (n : Int)
  | str (s : String)
  | bool (b : Bool)
  | dt (d : PyDateTime)
  | enum (vals : List Int) (v : Int)
  | record (schema : List (String × Ty)) (flds : List (String × Val))
  | list (xs : List Val)
  | dict (entries : List (Val × Val))
deriving Repr

/-- The `filters` payload of the two lookup exceptions: `Manager.get` raises
`DoesNotExist(self.doc_klass, pk)` with the raw primary key in its by-key
branch, and `DoesNotExist(self.doc_klass, filters=kwargs)` /
`MultipleObjectsFound(self.doc_klass, filters=kwargs)` with the keyword
filters in its filtering branch. -/
inductive ErrFilters where
  | pk (v : Val)
  | kwargs (l : List (String × Val))
deriving Repr

/-- The error taxonomy of the layer.  `unsupportedFormat` models
`exceptions.UnsupportedFormatException`, `validation` models
`exceptions.ValidationError`, `doesNotExist` / `multipleObjectsFound` model the
two dataclass exceptions of `datastore.py` (carrying the document class, here
its kind name, and the filters/pk payload), and `typeError` / `valueError` /
`attributeError` / `keyError` model the corresponding Python builtin
exceptions. -/
inductive Err where
  | unsupportedFormat (msg : String)
  | validation (msg : String)
  | doesNotExist (kind : String) (filters : ErrFilters)
  | multipleObjectsFound (kind : String) (filters : ErrFilters)
  | typeError
  | valueError
  | attributeError
  | keyError
deriving Repr

/-- Whether a declared type is a `typing.List`/`typing.Dict` container, i.e.
whether `getattr(field_klass, "_name", "")` is `"List"` or `"Dict"`. -/
def isContainerTy : Ty → Bool
  | .listOf _ => true
  | .dictOf _ _ => true
  | _ => false

/-! Structural equality of declared types (Python class identity):
`tyBeq` / `schemaBeq`, with soundness (`tyBeq_eq`) and reflexivity. -/

mutual
def tyBeq : Ty → Ty → Bool
  | .int, .int => true
  | .str, .str => true
  | .bool, .bool => true
  | .dt, .dt => true
  | .enum a, .enum b => a == b
  | .embedded s, .embedded s2 => schemaBeq s s2
  | .listOf a, .listOf b => tyBeq a b
  | .dictOf a b, .dictOf c d => tyBeq a c && tyBeq b d
  | _, _ => false
def schemaBeq : List (String × Ty) → List (String × Ty) → Bool
  | [], [] => true
  | (n, t) :: r, (n2, t2) :: r2 => n == n2 && tyBeq t t2 && schemaBeq r r2
  | _, _ => false
end

/-! ## Python semantics helpers -/

/-- Python truthiness (`bool(v)`): `None`, `0`, `""` and empty containers are
falsy; datetimes, enum members and dataclass instances (no `__bool__`,
no `__len__`) are always truthy. -/
def pyTruthy : Val → Bool
  | .none => false
  | .int n => n != 0
  | .str s => !s.isEmpty
  | .bool b => b
  | .dt _ => true
  | .enum _ _ => true
  | .record _ _ => true
  | .list xs => !xs.isEmpty
  | .dict es => !es.isEmpty

/-- Python `str(v)`.  The legs the codec depends on are exact: a string is
returned unchanged and a datetime renders as `isoformat(sep=' ')`.  The
remaining legs are simple renderings; no theorem in this file depends on
them. -/
def pyStr : Val → String
  | .none => "None"
  | .int n => toString n
  | .str s => s
  | .bool b => if b then "True" else "False"
  | .dt d => String.mk d.strChars
  | .enum _ v => toString v
  | .record _ _ => "<record>"
  | .list _ => "<list>"
  | .dict _ => "<dict>"

/-- Python `int(v)`: identity on ints, `True`/`False` to `1`/`0`, decimal
parse for strings (`ValueError` on failure), `TypeError` otherwise. -/
def pyInt : Val → Except Err Int
  | .int n => .ok n
  | .bool b => .ok (if b then 1 else 0)
  | .str s => match s.toInt? with
    | some n => .ok n
    | Option.none => .error .valueError
  | _ => .error .typeError

/-! Structural model of Python `==` on the values above (`valBeq`).  Dataclass
equality compares class and fields; Python's cross-type numeric equalities
(e.g. `True == 1`) are not modelled — no theorem here relies on them. -/

mutual
def valBeq : Val → Val → Bool
  | .none, .none => true
  | .int a, .int b => a == b
  | .str a, .str b => a == b
  | .bool a, .bool b => a == b
  | .dt a, .dt b => a == b
  | .enum va a, .enum vb b => va == vb && a == b
  | .record sa fa, .record sb fb => schemaBeq sa sb && fieldsBeq fa fb
  | .list a, .list b => valListBeq a b
  | .dict a, .dict b => valPairsBeq a b
  | _, _ => false
def fieldsBeq : List (String × Val) → List (String × Val) → Bool
  | [], [] => true
  | (n, v) :: r, (n2, v2) :: r2 => n == n2 && valBeq v v2 && fieldsBeq r r2
  | _, _ => false
def valListBeq : List Val → List Val → Bool
  | [], [] => true
  | v :: r, v2 :: r2 => valBeq v v2 && valListBeq r r2
  | _, _ => false
def valPairsBeq : List (Val × Val) → List (Val × Val) → Bool
  | [], [] => true
  | (k, v) :: r, (k2, v2) :: r2 => valBeq k k2 && valBeq v v2 && valPairsBeq r r2
  | _, _ => false
end

/-- `getattr(obj, name)` over a record's fields: first binding wins, carrying
a size bound so the recursive codec below is well-founded. -/
def lookupFieldSized : (l : List (String × Val)) → String →
    Option {v : Val // sizeOf v < sizeOf l}
  | [], _ => Option.none
  | (n, v) :: rest, m =>
    if n = m then some ⟨v, by simp; omega⟩
    else match lookupFieldSized rest m with
      | some ⟨w, h⟩ => some ⟨w, by simp; omega⟩
      | Option.none => Option.none

/-- Whether a Python dict key equals the string `m`. -/
def valIsStrKey (k : Val) (m : String) : Bool :=
  match k with
  | .str s => s == m
  | _ => false

/-- `data[name]` over a property bag (a Python dict whose keys of interest
are strings): first binding whose key is the string `name`. -/
def bagLookupSized : (l : List (Val × Val)) → String →
    Option {v : Val // sizeOf v < sizeOf l}
  | [], _ => Option.none
  | (k, v) :: rest, m =>
    if valIsStrKey k m then some ⟨v, by simp; omega⟩
    else match bagLookupSized rest m with
      | some ⟨w, h⟩ => some ⟨w, by simp; omega⟩
      | Option.none => Option.none

/-! ## `Metadata.to_dict` (encode): `_unbuild` and the field loop

`to_dict` iterates the declared schema in order; for each field it reads
`getattr(obj, field_name)` and dispatches on the *declared* type only to
decide whether to map `_unbuild` over a list / over dict items; `_unbuild`
itself dispatches on the *value* (None / EmbeddedDocument / Enum / other).
An embedded document is serialized through its own class schema
(`value.Meta.to_dict(obj=value)`), without `select_fields`.

The `select_fields` skip is modelled verbatim from the source line
`if select_fields and field not in select_fields: continue`, where `field`
is the `dataclasses.field` *function* imported at module top (not the loop
variable `field_name`): a function object never equals a string, so the
membership test is always `False` (see `dataclassesFieldMem`). -/

/-- Python truthiness of the `select_fields` argument (`None` and `[]` are
falsy, a non-empty list is truthy). -/
def selectTruthy : Option (List String) → Bool
  | Option.none => false
  | some l => !l.isEmpty

/-- `field in select_fields` where `field` is the `dataclasses.field`
function: a function object compares unequal to every string, so membership
in a list of field-name strings is always `false`. -/
def dataclassesFieldMem (_sf : List String) : Bool := false

mutual
/-- `_unbuild` of `Metadata.to_dict`. -/
def unbuild : Val → Except Err Val
  | .none => .ok .none
  | .record s flds => do pure (.dict (← toDictAux Option.none s flds))
  | .enum _ v => .ok (.int v)
  | v => .ok v
  termination_by v => sizeOf v
  decreasing_by all_goals (simp_wf <;> omega)

def unbuildList : List Val → Except Err (List Val)
  | [] => .ok []
  | v :: vs => do pure ((← unbuild v) :: (← unbuildList vs))
  termination_by l => sizeOf l
  decreasing_by all_goals (simp_wf <;> omega)

def unbuildPairs : List (Val × Val) → Except Err (List (Val × Val))
  | [] => .ok []
  | (k, v) :: rest => do pure (((← unbuild k), (← unbuild v)) :: (← unbuildPairs rest))
  termination_by l => sizeOf l
  decreasing_by all_goals (simp_wf <;> omega)

/-- The per-field body of `to_dict`'s loop: dispatch on the declared type
(`getattr(field_klass, "_name", "")`), then `_unbuild`.  Iterating a
non-list raw value for a `List` field (e.g. `None`) raises `TypeError`;
`raw_value.items()` on a non-dict raises `AttributeError`. -/
def encodeField : Ty → Val → Except Err Val
  | .listOf _, raw =>
    match raw with
    | .list xs => do pure (.list (← unbuildList xs))
    | _ => .error .typeError
  | .dictOf _ _, raw =>
    match raw with
    | .dict es => do pure (.dict (← unbuildPairs es))
    | _ => .error .attributeError
  | _, raw => unbuild raw
  termination_by t raw => sizeOf t + sizeOf raw + 1
  decreasing_by all_goals (simp_wf <;> omega)

/-- The loop of `Metadata.to_dict`: schema order is preserved in the output
bag; a field missing from the object raises `AttributeError` (`getattr`
with no default). -/
def toDictAux (select : Option (List String)) :
    List (String × Ty) → List (String × Val) → Except Err (List (Val × Val))
  | [], _ => .ok []
  | (n, t) :: rest, flds =>
    if selectTruthy select && !dataclassesFieldMem (select.getD []) then
      toDictAux select rest flds
    else
      match lookupFieldSized flds n with
      | Option.none => .error .attributeError
      | some ⟨raw, _⟩ => do
        let item ← encodeField t raw
        pure ((.str n, item) :: (← toDictAux select rest flds))
  termination_by s flds => sizeOf s + sizeOf flds
  decreasing_by all_goals (simp_wf <;> omega)
end

/-- `Metadata.to_dict(obj, select_fields)`: reads the declared fields off the
object.  `getattr` on a non-record value raises `AttributeError`. -/
def metaToDict (schema : List (String × Ty)) (obj : Val)
    (select : Option (List String)) : Except Err (List (Val × Val)) :=
  match obj with
  | .record _ flds => toDictAux select schema flds
  | _ => .error .attributeError

/-! ## `Metadata.from_dict` (decode): `_build` and the field loop

`from_dict` iterates the declared schema in order; a field absent from the
bag is skipped (`KeyError` → `continue`; the dataclass constructor then
leaves it at its class default).  The `List`/`Dict` container dispatch on
the declared type happens *before* `_build`, so a `None` raw value reaches
`_build`'s `value is None` short-circuit only for non-container fields. -/

mutual
/-- `_build` of `Metadata.from_dict`: `None` passes through; an
`EmbeddedDocument` class decodes recursively from a dict (anything else
fails — `data.copy()` / string indexing on a non-dict); `datetime` parses
`fromisoformat(str(value))`; an `Enum` class looks the value up among its
members; any other class is applied as a converter (`klass(value)`).
A `List`/`Dict` declared type can reach `_build` only as the element type
of a composite annotation, where `issubclass(List[...], EmbeddedDocument)`
raises `TypeError` (the source's untested "composite types" path). -/
def build : Ty → Val → Except Err Val
  | _, .none => .ok .none
  | .embedded s, v =>
    match v with
    | .dict es => do pure (.record s (← fromDictAux s es))
    | _ => .error .attributeError
  | .dt, v =>
    match fromIsoChars (pyStr v).toList with
    | some d => .ok (.dt d)
    | Option.none => .error .valueError
  | .int, v => do pure (.int (← pyInt v))
  | .str, v => .ok (.str (pyStr v))
  | .bool, v => .ok (.bool (pyTruthy v))
  | .enum vals, v =>
    match v with
    | .int n => if vals.contains n then .ok (.enum vals n) else .error .valueError
    | .enum vals2 n => if vals2 == vals then .ok (.enum vals n) else .error .valueError
    | _ => .error .valueError
  | .listOf _, _ => .error .typeError
  | .dictOf _ _, _ => .error .typeError
  termination_by t v => sizeOf t + sizeOf v
  decreasing_by all_goals (simp_wf <;> omega)

def buildList (t : Ty) : List Val → Except Err (List Val)
  | [] => .ok []
  | v :: vs => do pure ((← build t v) :: (← buildList t vs))
  termination_by l => sizeOf t + sizeOf l
  decreasing_by all_goals (simp_wf <;> omega)

def buildPairs (kt vt : Ty) : List (Val × Val) → Except Err (List (Val × Val))
  | [] => .ok []
  | (k, v) :: rest => do
    pure (((← build kt k), (← build vt v)) :: (← buildPairs kt vt rest))
  termination_by l => sizeOf kt + sizeOf vt + sizeOf l
  decreasing_by all_goals (simp_wf <;> omega)

/-- The per-field body of `from_dict`'s loop: dispatch on the declared type
(`getattr(field_klass, "_name", "")`), then `_build`.  Iterating a non-list
raw value for a `List` field (in particular `None`) raises `TypeError`;
`raw_value.items()` on a non-dict raises `AttributeError`. -/
def decodeField : Ty → Val → Except Err Val
  | .listOf t, raw =>
    match raw with
    | .list xs => do pure (.list (← buildList t xs))
    | _ => .error .typeError
  | .dictOf kt vt, raw =>
    match raw with
    | .dict es => do pure (.dict (← buildPairs kt vt es))
    | _ => .error .attributeError
  | t, raw => build t raw
  termination_by t raw => sizeOf t + sizeOf raw + 1
  decreasing_by all_goals (simp_wf <;> omega)

/-- The loop of `Metadata.from_dict`: fields absent from the bag are
skipped, decoded fields are collected in schema order. -/
def fromDictAux : List (String × Ty) → List (Val × Val) →
    Except Err (List (String × Val))
  | [], _ => .ok []
  | (n, t) :: rest, data =>
    match bagLookupSized data n with
    | Option.none => fromDictAux rest data
    | some ⟨raw, _⟩ => do
      let item ← decodeField t raw
      pure ((n, item) :: (← fromDictAux rest data))
  termination_by s data => sizeOf s + sizeOf data
  decreasing_by all_goals (simp_wf <;> omega)
end

/-- `Metadata.from_dict(data)`: decode the bag and construct an instance of
`doc_klass` (a record carrying the class schema; fields the loop skipped are
left to the dataclass defaults and omitted here). -/
def metaFromDict (schema : List (String × Ty)) (data : List (Val × Val)) :
    Except Err Val := do
  pure (.record schema (← fromDictAux schema data))

/-- `from_dict ∘ to_dict` (no field selection): the round-trip of §8. -/
def metaRoundTrip (schema : List (String × Ty)) (obj : Val) : Except Err Val := do
  metaFromDict schema (← metaToDict schema obj Option.none)

/-! ## Validity of an instance against its declared schema

`conformsV t v` says the runtime value `v` is an instance of the declared
type `t`; `conformsField` additionally allows `None` in a non-container
field (and requires an actual list/dict, with flat element types and
distinct keys, for `List`/`Dict` fields); `conformsF` aligns a record's
fields with its schema in declaration order.  This is the "valid instance"
notion the round-trip theorems quantify over. -/

/-- No binding in `s` is named `m`. -/
def nameNotInSchema (m : String) (s : List (String × Ty)) : Bool :=
  s.all (fun p => p.1 != m)

/-- Field names of a schema are pairwise distinct (Python class annotations
live in a dict, so a real schema always satisfies this). -/
def schemaNodupNames : List (String × Ty) → Bool
  | [] => true
  | (n, _) :: rest => nameNotInSchema n rest && schemaNodupNames rest

/-- Key `k` does not occur among the keys of `es`. -/
def keyNotIn (k : Val) (es : List (Val × Val)) : Bool :=
  es.all (fun p => !valBeq k p.1)

/-- The keys of a Python dict are pairwise distinct. -/
def dictKeysUnique : List (Val × Val) → Bool
  | [] => true
  | (k, _) :: rest => keyNotIn k rest && dictKeysUnique rest

/-- Whether a value is Python `None`. -/
def valIsNoneB : Val → Bool
  | .none => true
  | _ => false

mutual
def conformsV : Ty → Val → Bool
  | .int, .int _ => true
  | .str, .str _ => true
  | .bool, .bool _ => true
  | .dt, .dt d => d.isValid
  | .enum vals, .enum vals2 v => vals2 == vals && vals.contains v
  | .embedded s, .record s2 flds =>
    schemaBeq s2 s && schemaNodupNames s && conformsF s flds
  | _, _ => false
  termination_by t v => sizeOf t + 2 * sizeOf v
  decreasing_by all_goals (simp_wf <;> omega)

def conformsF : List (String × Ty) → List (String × Val) → Bool
  | [], [] => true
  | (n, t) :: rest, (n2, v) :: frest =>
    n2 == n && conformsField t v && conformsF rest frest
  | _, _ => false
  termination_by s fl => sizeOf s + 2 * sizeOf fl
  decreasing_by all_goals (simp_wf <;> omega)

def conformsField : Ty → Val → Bool
  | .listOf t, .list xs => !isContainerTy t && conformsElems t xs
  | .listOf _, _ => false
  | .dictOf kt vt, .dict es =>
    !isContainerTy kt && !isContainerTy vt && dictKeysUnique es &&
    conformsPairs kt vt es
  | .dictOf _ _, _ => false
  | _, .none => true
  | t, v => conformsV t v
  termination_by t v => sizeOf t + 2 * sizeOf v + 1
  decreasing_by all_goals (simp_wf <;> omega)

/-- A container element: `None` or a conforming value of the element type. -/
def conformsOptV (t : Ty) (v : Val) : Bool :=
  valIsNoneB v || conformsV t v
  termination_by sizeOf t + 2 * sizeOf v + 1
  decreasing_by all_goals (simp_wf <;> omega)

def conformsElems (t : Ty) : List Val → Bool
  | [] => true
  | x :: xs => conformsOptV t x && conformsElems t xs
  termination_by xs => sizeOf t + 2 * sizeOf xs
  decreasing_by all_goals (simp_wf <;> omega)

def conformsPairs (kt vt : Ty) : List (Val × Val) → Bool
  | [] => true
  | (k, v) :: rest =>
    conformsOptV kt k && conformsOptV vt v && conformsPairs kt vt rest
  termination_by es => sizeOf kt + sizeOf vt + 2 * sizeOf es
  decreasing_by all_goals (simp_wf <;> omega)
end

/-- The schema of the C3 witness: one field of every declared-type form. -/
def c3WitnessSchema : List (String × Ty) :=
  [("id", .int), ("name", .str), ("ok", .bool), ("when", .dt),
   ("color", .enum [1, 2]), ("sub", .embedded [("x", .int), ("y", .str)]),
   ("tags", .listOf .str), ("attrs", .dictOf .str .int)]

/-- The record of the C3 witness: a valid instance of `c3WitnessSchema`. -/
def c3WitnessRecord : Val :=
  .record c3WitnessSchema
    [("id", .int 7), ("name", .str "doc"), ("ok", .bool true),
     ("when", .dt ⟨2021, 2, 3, 4, 5, 6, 123456⟩),
     ("color", .enum [1, 2] 2),
     ("sub", .record [("x", .int), ("y", .str)] [("x", .int 1), ("y", .str "s")]),
     ("tags", .list [.str "a", Val.none, .str "b"]),
     ("attrs", .dict [(.str "k", .int 3), (.str "l", Val.none)])]

/-! ## `Manager._build_filter` and `_starts_with_operator`

`key.split("__")` and `field_name.split(".")` are modelled by character-list
splitters with Python `str.split` semantics for these separators (the result
list is never empty; greedy, non-overlapping matches). -/

/-- Python `key.split("__")`. -/
def splitDunder : List Char → List (List Char)
  | [] => [[]]
  | '_' :: '_' :: rest => [] :: splitDunder rest
  | c :: rest =>
    match splitDunder rest with
    | s :: ss => (c :: s) :: ss
    | [] => [[c]]

/-- Python `field_name.split(".")`. -/
def splitDot : List Char → List (List Char)
  | [] => [[]]
  | '.' :: rest => [] :: splitDot rest
  | c :: rest =>
    match splitDot rest with
    | s :: ss => (c :: s) :: ss
    | [] => [[c]]

/-- The keys of `Manager.lookup_operators`. -/
def lookupOperatorNames : List String :=
  ["eq", "gt", "gte", "lt", "lte", "in", "startswith"]

/-- `_starts_with_operator(lookup_fields, value)`.  Note the source calls it
(were it ever reached) with `field_name`, a *string*, and
`".".join(lookup_fields)` over a string interleaves its characters with
dots; the second bound appends U+FFFD to `str(value)` (the f-string). -/
def startsWithOperator (lookupFields : String) (value : Val) :
    List (String × String × Val) :=
  let fieldName := String.intercalate "." (lookupFields.toList.map Char.toString)
  [(fieldName, ">=", value), (fieldName, "<=", .str (pyStr value ++ "�"))]

/-- `Manager._build_filter(key, value)`.  `fields` is the manager's declared
field-name table (only key membership is consulted).  The operator suffix is
validated against `lookup_operators`; the source then tests
`callable(operator)` on the suffix *string* `extra[0]` — never on the mapped
table entry — and a string is not callable, so the `startswith` expansion is
unreachable and the raw suffix flows into the returned predicate. -/
def buildFilter (fields : List String) (key : String) (value : Val) :
    Except Err (List (String × String × Val)) :=
  match splitDunder key.toList with
  | [] => .error (.unsupportedFormat "unreachable: str.split is never empty")
  | fieldChars :: extra => do
    let operator : Option String ←
      match extra with
      | [] => .ok Option.none
      | [opChars] =>
        let op := String.mk opChars
        if lookupOperatorNames.contains op then .ok (some op)
        else .error (.unsupportedFormat ("Unsupported lookup " ++ op))
      | _ => .error (.unsupportedFormat "Unsupported lookup key format")
    match splitDot fieldChars with
    | p0 :: _ :: _ =>
      if (String.mk p0) ∈ fields then
        .ok [(String.mk fieldChars, operator.getD "=", value)]
      else
        .error (.validation ((String.mk p0) ++
          " is not a valid field. Excepted one of " ++
          String.intercalate " | " fields))
    | _ => .ok [(String.mk fieldChars, operator.getD "=", value)]

/-- The key carries more than one `__`-separated suffix. -/
def multiSuffixKey (extra : List (List Char)) : Bool :=
  decide (1 < extra.length)

/-- The key carries exactly one suffix and it is not a known operator. -/
def unknownOpKey (extra : List (List Char)) : Bool :=
  match extra with
  | [op] => !(lookupOperatorNames.contains (String.mk op))
  | _ => false

/-- The field path is dot-nested and its leading segment is undeclared. -/
def nestedUndeclared (fields : List String) (fieldChars : List Char) : Bool :=
  match splitDot fieldChars with
  | p0 :: _ :: _ => !(fields.contains (String.mk p0))
  | _ => false

/-- The operator a suffix list compiles to: the raw single suffix, or the
default `=` when there is none. -/
def opOfSuffix : List (List Char) → String
  | [op] => String.mk op
  | _ => "="

/-! ## The external datastore client and the `Manager` operations

Entities are keyed by `(kind, id)`; their property bag is a Python dict as
produced by `to_dict` (string keys).  `datastore.Query.add_filter` *mutates*
the query object and returns `self`: the source's direct-filter path
(`query.add_filter(field_name, operator, field_value)` as a bare statement)
relies on the mutation, which pins this behaviour for the model; the
cross-filter path's `current_query = query` therefore aliases one shared
query object (see `crossAccum`). -/

/-- A stored entity: key kind, key id, property bag. -/
structure Entity where
  kind : String
  id : Int
  props : List (Val × Val)
deriving Repr

/-- Plain first-match lookup in a string-keyed association list
(`getattr` over a record's fields / key membership in `kwargs`). -/
def lookupName : List (String × Val) → String → Option Val
  | [], _ => Option.none
  | (n, v) :: rest, m => if n = m then some v else lookupName rest m

/-- Plain first-match lookup of a string key in a Python dict. -/
def lookupPropBag : List (Val × Val) → String → Option Val
  | [], _ => Option.none
  | (k, v) :: rest, m => if valIsStrKey k m then some v else lookupPropBag rest m

/-- Store-side `=` on primitive property values (the store compares the
indexed primitives; container- or entity-valued properties are not compared
by any theorem here and match nothing). -/
def storeValEq : Val → Val → Bool
  | .none, .none => true
  | .int a, .int b => a == b
  | .str a, .str b => a == b
  | .bool a, .bool b => a == b
  | .dt a, .dt b => a == b
  | _, _ => false

/-- Store-side `<` on property values (ints and strings). -/
def valLt : Val → Val → Bool
  | .int a, .int b => a < b
  | .str a, .str b => decide (a < b)
  | _, _ => false

/-- Store-side `≤` on property values (ints and strings). -/
def valLe : Val → Val → Bool
  | .int a, .int b => a ≤ b
  | .str a, .str b => decide (a ≤ b)
  | _, _ => false

/-- Whether a stored entity satisfies one native filter.  Only the
operators the backend accepts are given semantics; the store indexes
properties, so an entity without the property matches nothing. -/
def evalFilter (e : Entity) (f : String × String × Val) : Bool :=
  match lookupPropBag e.props f.1 with
  | Option.none => false
  | some w =>
    match f.2.1 with
    | "=" => storeValEq w f.2.2
    | ">=" => valLe f.2.2 w
    | "<=" => valLe w f.2.2
    | ">" => valLt f.2.2 w
    | "<" => valLt w f.2.2
    | _ => false

/-- A native query object: kind plus the filter list `add_filter` has
accumulated.  (`order` / `distinct_on` play no role in the claims.) -/
structure DSQuery where
  kind : String
  filters : List (String × String × Val)
deriving Repr

/-- The store runs a query: every entity of the kind matching all filters,
in store order.  `Manager._iterate` streams exactly these entities page by
page and is collapsed to the full list. -/
def runQuery (db : List Entity) (q : DSQuery) : List Entity :=
  db.filter (fun e => e.kind == q.kind && q.filters.all (evalFilter e))

/-- The per-kind state a `Manager` closes over: the declared schema
(`fields`), the primary-key field name and the kind name. -/
structure Mgr where
  schema : List (String × Ty)
  pkField : String
  kind : String

/-- The declared field names (`self.fields` as consulted by
`_build_filter`'s membership test). -/
def Mgr.fieldNames (m : Mgr) : List String := m.schema.map Prod.fst

/-- `defaultdict(list)` grouping of the cross filters: inserting
`(name, "=", value)` under `options[name]` for each value of each `in`
filter, preserving first-insertion key order. -/
def optionsUpsert (acc : List (String × List (String × String × Val)))
    (nameF : String) (entry : String × String × Val) :
    List (String × List (String × String × Val)) :=
  match acc with
  | [] => [(nameF, [entry])]
  | (n, l) :: rest =>
    if n = nameF then (n, l ++ [entry]) :: rest
    else (n, l) :: optionsUpsert rest nameF entry

/-- The `options` loop of `Manager.query`: each cross filter's value list is
iterated (`TypeError` if the value is not a list). -/
def buildOptionsGo (acc : List (String × List (String × String × Val))) :
    List (String × String × Val) →
    Except Err (List (String × List (String × String × Val)))
  | [] => .ok acc
  | (nameF, _, values) :: rest =>
    match values with
    | .list xs =>
      buildOptionsGo (xs.foldl (fun a v => optionsUpsert a nameF (nameF, "=", v)) acc) rest
    | _ => .error .typeError

def buildOptions (cross : List (String × String × Val)) :
    Except Err (List (String × List (String × String × Val))) :=
  buildOptionsGo [] cross

/-- `itertools.product(*options.values())`: leftmost list varies slowest. -/
def cartesianProduct : List (List α) → List (List α)
  | [] => [[]]
  | xs :: rest => (xs.map (fun x => (cartesianProduct rest).map (x :: ·))).join

/-- One pass of the dedup loop: yield each item whose store id has not been
seen, in first-seen order. -/
def dedupStep : List Entity → List Int → List Entity → (List Int × List Entity)
  | [], found, out => (found, out)
  | e :: rest, found, out =>
    if found.contains e.id then dedupStep rest found out
    else dedupStep rest (found ++ [e.id]) (out ++ [e])

/-- The combination loop of `Manager.query`.  Because
`current_query = query` aliases the one shared query object and
`add_filter` mutates it in place (returning `self`), `acc` — the shared
object's filter list — carries every previous combination's equality
filters into the next combination's query. -/
def crossAccum (db : List Entity) (kind : String) :
    List (List (String × String × Val)) → List (String × String × Val) →
    List Int → List Entity → List Int × List Entity
  | [], _, found, out => (found, out)
  | combo :: rest, acc, found, out =>
    let acc2 := acc ++ combo
    let items := runQuery db ⟨kind, acc2⟩
    let fo := dedupStep items found out
    crossAccum db kind rest acc2 fo.1 fo.2

/-- `Manager.query(**kwargs)` (without `order_by`/`distinct_on`): compile
each lookup, split the predicates into direct filters (added to the base
query) and cross (`in`) filters, then either run the single direct query or
run the combination loop. -/
def managerQuery (m : Mgr) (db : List Entity) (kwargs : List (String × Val)) :
    Except Err (List Entity) := do
  let filterLists ← kwargs.mapM (fun kv => buildFilter m.fieldNames kv.1 kv.2)
  let allFilters := filterLists.join
  let baseFilters := allFilters.filter (fun f => f.2.1 != "in")
  let crossFilters := allFilters.filter (fun f => f.2.1 == "in")
  if crossFilters.isEmpty then
    pure (runQuery db ⟨m.kind, baseFilters⟩)
  else do
    let options ← buildOptions crossFilters
    let combos := cartesianProduct (options.map Prod.snd)
    pure (crossAccum db m.kind combos baseFilters [] []).2

/-! ### C1: the cross-product example of §8 -/

def c1Mgr : Mgr := ⟨[("id", .int), ("status", .str)], "id", "K"⟩

def c1e1 : Entity := ⟨"K", 1, [(.str "id", .int 1), (.str "status", .str "active")]⟩

def c1e2 : Entity := ⟨"K", 3, [(.str "id", .int 3), (.str "status", .str "active")]⟩

def c1e3 : Entity := ⟨"K", 2, [(.str "id", .int 2), (.str "status", .str "active")]⟩

def c1e4 : Entity := ⟨"K", 4, [(.str "id", .int 4), (.str "status", .str "active")]⟩

def c1e5 : Entity := ⟨"K", 5, [(.str "id", .int 5), (.str "status", .str "inactive")]⟩

/-- Five stored records of kind `K`: two matching `id ∈ {1,3}` and
`status="active"` (`c1e1`, `c1e2`), one matching `id=2` and
`status="active"` (`c1e3`), two non-matching (`c1e4`, `c1e5`). -/
def c1DB : List Entity := [c1e1, c1e2, c1e3, c1e4, c1e5]

/-! ### Keys, `from_entity`, `filter` and `get` -/

/-- `allocate_ids(client.key(kind), 1)[0]`: the store hands out a fresh id,
modelled as one more than the largest id in the store (never 0, never in
use). -/
def allocateId (db : List Entity) : Int :=
  1 + db.foldl (fun a e => max a e.id) 0

/-- `Manager.build_key(pk)`: a truthy `pk` is converted with the declared
primary-key field type (`int` for the synthesized `id`) and keyed directly;
a falsy `pk` (`None`, `0`, `""`) lets the server allocate a fresh id. -/
def buildKey (m : Mgr) (db : List Entity) (pk : Val) :
    Except Err (String × Int) :=
  if pyTruthy pk then do
    let n ← pyInt pk
    pure (m.kind, n)
  else .ok (m.kind, allocateId db)

/-- `client.get(key)`: the stored entity with that key, if any. -/
def clientGet (db : List Entity) (key : String × Int) : Option Entity :=
  db.find? (fun e => e.kind == key.1 && e.id == key.2)

/-- `Manager.from_entity`: take the entity's bag, substitute the store key
id for a missing primary-key property, then decode via
`Meta.from_dict`. -/
def fromEntity (m : Mgr) (e : Entity) : Except Err Val :=
  let data :=
    if (lookupPropBag e.props m.pkField).isSome then e.props
    else e.props ++ [(Val.str m.pkField, Val.int e.id)]
  metaFromDict m.schema data

/-- `Manager.filter(**kwargs)`: decode every entity the query yields. -/
def managerFilter (m : Mgr) (db : List Entity) (kwargs : List (String × Val)) :
    Except Err (List Val) := do
  let entities ← managerQuery m db kwargs
  entities.mapM (fromEntity m)

/-- The accumulation loop of `Manager.get`'s filtering branch: a second
yielded object raises `MultipleObjectsFound`; a falsy final object (only
`None` — decoded documents are always-truthy dataclass instances) raises
`DoesNotExist`. -/
def getOne (m : Mgr) (kwargs : List (String × Val)) (objs : List Val) :
    Except Err Val :=
  match objs with
  | [] => .error (.doesNotExist m.kind (.kwargs kwargs))
  | [x] =>
    if pyTruthy x then .ok x else .error (.doesNotExist m.kind (.kwargs kwargs))
  | _ :: _ :: _ => .error (.multipleObjectsFound m.kind (.kwargs kwargs))

/-- `Manager.get(**kwargs)`: fetch by key when the primary-key field is
among the kwargs (raising `DoesNotExist(kind, pk)` on a miss), else filter
and demand exactly one result. -/
def managerGet (m : Mgr) (db : List Entity) (kwargs : List (String × Val)) :
    Except Err Val :=
  match lookupName kwargs m.pkField with
  | some pk =>
    match buildKey m db pk with
    | .error e => .error e
    | .ok key =>
      match clientGet db key with
      | some entity => fromEntity m entity
      | Option.none => .error (.doesNotExist m.kind (.pk pk))
  | Option.none =>
    match managerFilter m db kwargs with
    | .error e => .error e
    | .ok objs => getOne m kwargs objs

/-! ### `to_entity`, `put` and `create` -/

/-- `obj.pk`: `getattr(self, self.Meta.pk_field, None)`. -/
def objPk (m : Mgr) (obj : Val) : Val :=
  match obj with
  | .record _ flds =>
    match lookupName flds m.pkField with
    | some v => v
    | Option.none => .none
  | _ => .none

/-- `setattr(obj, name, v)` on the fields of a dataclass instance. -/
def setFieldList (name : String) (v : Val) :
    List (String × Val) → List (String × Val)
  | [] => [(name, v)]
  | (n, w) :: rest =>
    if n = name then (n, v) :: rest else (n, w) :: setFieldList name v rest

/-- `setattr(obj, self.Meta.pk_field, v)`; on a non-record it is the
identity (the Python would raise, but every such path already failed in
`to_dict`). -/
def setField (m : Mgr) (v : Val) (obj : Val) : Val :=
  match obj with
  | .record s flds => .record s (setFieldList m.pkField v flds)
  | o => o

/-- `Manager.to_entity(obj)`: build the key from `obj.pk` (allocating when
falsy), write the allocated id back onto a pk-less object *before*
serializing, and fill the entity with `to_dict` of the (possibly updated)
object.  Returns the entity together with the updated in-memory object. -/
def toEntity (m : Mgr) (db : List Entity) (obj : Val) :
    Except Err (Entity × Val) := do
  let key ← buildKey m db (objPk m obj)
  let obj2 := if pyTruthy (objPk m obj) then obj else setField m (.int key.2) obj
  let bag ← metaToDict m.schema obj2 Option.none
  pure (⟨key.1, key.2, bag⟩, obj2)

/-- `client.put(entity)`: upsert by key. -/
def clientPut (db : List Entity) (e : Entity) : List Entity :=
  if db.any (fun x => x.kind == e.kind && x.id == e.id) then
    db.map (fun x => if x.kind == e.kind && x.id == e.id then e else x)
  else db ++ [e]

/-- `Manager.create(obj)`: write the entity, then re-run the
`if not obj.pk` write-back (a no-op: `to_entity` already populated a falsy
pk).  Returns the in-memory object and the updated store. -/
def managerCreate (m : Mgr) (db : List Entity) (obj : Val) :
    Except Err (Val × List Entity) := do
  let r ← toEntity m db obj
  let db2 := clientPut db r.1
  let obj3 := if pyTruthy (objPk m r.2) then r.2 else setField m (.int r.1.id) r.2
  pure (obj3, db2)

/-! ### `_chunks`, `delete_multi` and `Manager.delete` -/

/-- `MAX_ITEMS_PER_OPERATIONS`: Datastore cannot write more than 500 items
per call. -/
def MAX_ITEMS_PER_OPERATIONS : Nat := 500

/-- `_chunks(lst, n)`: successive `n`-sized slices
(`lst[i : i + n]` for `i = 0, n, 2n, ...`).  The guard also returns `[]`
for `n = 0`, where Python's `range` would raise; the source only ever
passes 500. -/
def chunks {α : Type} (n : Nat) (l : List α) : List (List α) :=
  if h : (l.isEmpty || n == 0) = true then []
  else l.take n :: chunks n (l.drop n)
  termination_by l.length
  decreasing_by
    simp_wf
    simp only [Bool.or_eq_true, beq_iff_eq, List.isEmpty_iff, not_or] at h
    exact ⟨List.length_pos.mpr h.1, Nat.pos_of_ne_zero h.2⟩

/-- `entity.key`, as handed to `delete_multi`. -/
def entityKey (e : Entity) : String × Int := (e.kind, e.id)

/-- `client.delete_multi(keys)`: remove every entity whose key is listed. -/
def clientDeleteMulti (db : List Entity) (keys : List (String × Int)) :
    List Entity :=
  db.filter (fun e => !(keys.contains (entityKey e)))

/-- `client.delete(key)`: remove the entity with that key. -/
def clientDelete (db : List Entity) (key : String × Int) : List Entity :=
  db.filter (fun e => !(entityKey e == key))

/-- The key batches `Manager.delete()` (no pk) sends: the keys of
`self.query()` — every entity of the kind — in 500-sized chunks. -/
def deleteAllBatches (m : Mgr) (db : List Entity) :
    List (List (String × Int)) :=
  chunks MAX_ITEMS_PER_OPERATIONS ((runQuery db ⟨m.kind, []⟩).map entityKey)

/-- The store after `Manager.delete()` (no pk): one `delete_multi` call per
batch, applied in order. -/
def deleteAllResult (m : Mgr) (db : List Entity) : List Entity :=
  (deleteAllBatches m db).foldl clientDeleteMulti db

/-- `Manager.delete(pk)`: by key when `pk` is truthy, else the batched
bulk delete of every record of the kind.  Returns the list of bulk-delete
calls (each a key list) and the resulting store. -/
def managerDelete (m : Mgr) (db : List Entity) (pk : Val) :
    Except Err (List (List (String × Int)) × List Entity) :=
  if pyTruthy pk then do
    let key ← buildKey m db pk
    pure ([], clientDelete db key)
  else .ok (deleteAllBatches m db, deleteAllResult m db)

/-- A kind `K` holding 1200 stored records (§8's bulk-delete example). -/
def c5Mgr : Mgr := ⟨[("x", Ty.int)], "id", "K"⟩

def c5DB : List Entity := (List.range 1200).map (fun i => ⟨"K", Int.ofNat i + 1, []⟩)

/-! ## Theorems -/

theorem pyDigit_digitChar : ∀ k, k < 10 → pyDigit (Nat.digitChar k) = some k := by decide

theorem parse2_pad2 (n : Nat) :
    parse2 (Nat.digitChar (n / 10 % 10)) (Nat.digitChar (n % 10)) = some (n % 100) := by
  rw [parse2, pyDigit_digitChar _ (by omega), pyDigit_digitChar _ (by omega)]
  simp only [Option.bind_eq_bind, Option.some_bind, Option.pure_def]
  congr 1
  omega

theorem parse4_pad4 (n : Nat) :
    parse4 (Nat.digitChar (n / 1000 % 10)) (Nat.digitChar (n / 100 % 10))
      (Nat.digitChar (n / 10 % 10)) (Nat.digitChar (n % 10)) = some (n % 10000) := by
  have h1 : n / 1000 % 10 = (n / 100) / 10 % 10 := by omega
  have h2 : n / 100 % 10 = (n / 100) % 10 := by omega
  rw [parse4, h1, h2, parse2_pad2 (n / 100), parse2_pad2 n]
  simp only [Option.bind_eq_bind, Option.some_bind, Option.pure_def]
  congr 1
  omega

theorem parse6_pad6 (n : Nat) :
    parse6 (Nat.digitChar (n / 100000 % 10)) (Nat.digitChar (n / 10000 % 10))
      (Nat.digitChar (n / 1000 % 10)) (Nat.digitChar (n / 100 % 10))
      (Nat.digitChar (n / 10 % 10)) (Nat.digitChar (n % 10)) = some (n % 1000000) := by
  have h1 : n / 100000 % 10 = (n / 10000) / 10 % 10 := by omega
  have h2 : n / 10000 % 10 = (n / 10000) % 10 := by omega
  have h3 : n / 1000 % 10 = (n / 100) / 10 % 10 := by omega
  have h4 : n / 100 % 10 = (n / 100) % 10 := by omega
  rw [parse6, h1, h2, h3, h4, parse2_pad2 (n / 10000),
    parse2_pad2 (n / 100), parse2_pad2 n]
  simp only [Option.bind_eq_bind, Option.some_bind, Option.pure_def]
  congr 1
  omega

/-- `fromisoformat (str d) = d` for every in-range naive datetime: the codec's
datetime leg is lossless. -/
theorem fromIsoChars_strChars (d : PyDateTime) (h : d.isValid = true) :
    fromIsoChars d.strChars = some d := by
  obtain ⟨y, mo, dd, hh, mi, ss, us⟩ := d
  simp only [PyDateTime.isValid, Bool.and_eq_true, decide_eq_true_eq] at h
  have ey : y % 10000 = y := by omega
  have emo : mo % 100 = mo := by omega
  have edd : dd % 100 = dd := by omega
  have ehh : hh % 100 = hh := by omega
  have emi : mi % 100 = mi := by omega
  have ess : ss % 100 = ss := by omega
  have hcond : (1 ≤ y && 1 ≤ mo && mo ≤ 12 && 1 ≤ dd && dd ≤ 31 &&
      hh ≤ 23 && mi ≤ 59 && ss ≤ 59) = true := by
    simp only [Bool.and_eq_true, decide_eq_true_eq]
    omega
  simp only [PyDateTime.strChars, pad4, pad2, pad6]
  by_cases hus : us = 0
  · subst hus
    simp only [if_pos rfl, List.append_nil, List.cons_append, List.nil_append]
    rw [fromIsoChars]
    rw [parse4_pad4 y, parse2_pad2 mo, parse2_pad2 dd,
      parse2_pad2 hh, parse2_pad2 mi, parse2_pad2 ss]
    simp only [ey, emo, edd, ehh, emi, ess, Option.bind_eq_bind, Option.some_bind,
      hcond, if_true]
    rfl
  · rw [if_neg hus]
    simp only [List.cons_append, List.nil_append]
    rw [fromIsoChars]
    rw [parse4_pad4 y, parse2_pad2 mo, parse2_pad2 dd,
      parse2_pad2 hh, parse2_pad2 mi, parse2_pad2 ss]
    simp only [ey, emo, edd, ehh, emi, ess, Option.bind_eq_bind, Option.some_bind]
    rw [parse6_pad6 us]
    have eus : us % 1000000 = us := by omega
    simp only [eus, Option.some_bind, hcond, if_true]
    rfl

mutual
theorem tyBeq_eq : ∀ a b, tyBeq a b = true → a = b
  | .int, .int, _ => rfl
  | .str, .str, _ => rfl
  | .bool, .bool, _ => rfl
  | .dt, .dt, _ => rfl
  | .enum a, .enum b, h => by
    simp only [tyBeq, beq_iff_eq] at h; rw [h]
  | .embedded s, .embedded s2, h => by
    rw [schemaBeq_eq s s2 (by simpa [tyBeq] using h)]
  | .listOf a, .listOf b, h => by
    rw [tyBeq_eq a b (by simpa [tyBeq] using h)]
  | .dictOf a b, .dictOf c d, h => by
    simp only [tyBeq, Bool.and_eq_true] at h
    rw [tyBeq_eq a c h.1, tyBeq_eq b d h.2]
  | .int, .str, h => by simp [tyBeq] at h
  | .int, .bool, h => by simp [tyBeq] at h
  | .int, .dt, h => by simp [tyBeq] at h
  | .int, .enum _, h => by simp [tyBeq] at h
  | .int, .embedded _, h => by simp [tyBeq] at h
  | .int, .listOf _, h => by simp [tyBeq] at h
  | .int, .dictOf _ _, h => by simp [tyBeq] at h
  | .str, .int, h => by simp [tyBeq] at h
  | .str, .bool, h => by simp [tyBeq] at h
  | .str, .dt, h => by simp [tyBeq] at h
  | .str, .enum _, h => by simp [tyBeq] at h
  | .str, .embedded _, h => by simp [tyBeq] at h
  | .str, .listOf _, h => by simp [tyBeq] at h
  | .str, .dictOf _ _, h => by simp [tyBeq] at h
  | .bool, .int, h => by simp [tyBeq] at h
  | .bool, .str, h => by simp [tyBeq] at h
  | .bool, .dt, h => by simp [tyBeq] at h
  | .bool, .enum _, h => by simp [tyBeq] at h
  | .bool, .embedded _, h => by simp [tyBeq] at h
  | .bool, .listOf _, h => by simp [tyBeq] at h
  | .bool, .dictOf _ _, h => by simp [tyBeq] at h
  | .dt, .int, h => by simp [tyBeq] at h
  | .dt, .str, h => by simp [tyBeq] at h
  | .dt, .bool, h => by simp [tyBeq] at h
  | .dt, .enum _, h => by simp [tyBeq] at h
  | .dt, .embedded _, h => by simp [tyBeq] at h
  | .dt, .listOf _, h => by simp [tyBeq] at h
  | .dt, .dictOf _ _, h => by simp [tyBeq] at h
  | .enum _, .int, h => by simp [tyBeq] at h
  | .enum _, .str, h => by simp [tyBeq] at h
  | .enum _, .bool, h => by simp [tyBeq] at h
  | .enum _, .dt, h => by simp [tyBeq] at h
  | .enum _, .embedded _, h => by simp [tyBeq] at h
  | .enum _, .listOf _, h => by simp [tyBeq] at h
  | .enum _, .dictOf _ _, h => by simp [tyBeq] at h
  | .embedded _, .int, h => by simp [tyBeq] at h
  | .embedded _, .str, h => by simp [tyBeq] at h
  | .embedded _, .bool, h => by simp [tyBeq] at h
  | .embedded _, .dt, h => by simp [tyBeq] at h
  | .embedded _, .enum _, h => by simp [tyBeq] at h
  | .embedded _, .listOf _, h => by simp [tyBeq] at h
  | .embedded _, .dictOf _ _, h => by simp [tyBeq] at h
  | .listOf _, .int, h => by simp [tyBeq] at h
  | .listOf _, .str, h => by simp [tyBeq] at h
  | .listOf _, .bool, h => by simp [tyBeq] at h
  | .listOf _, .dt, h => by simp [tyBeq] at h
  | .listOf _, .enum _, h => by simp [tyBeq] at h
  | .listOf _, .embedded _, h => by simp [tyBeq] at h
  | .listOf _, .dictOf _ _, h => by simp [tyBeq] at h
  | .dictOf _ _, .int, h => by simp [tyBeq] at h
  | .dictOf _ _, .str, h => by simp [tyBeq] at h
  | .dictOf _ _, .bool, h => by simp [tyBeq] at h
  | .dictOf _ _, .dt, h => by simp [tyBeq] at h
  | .dictOf _ _, .enum _, h => by simp [tyBeq] at h
  | .dictOf _ _, .embedded _, h => by simp [tyBeq] at h
  | .dictOf _ _, .listOf _, h => by simp [tyBeq] at h
theorem schemaBeq_eq : ∀ s s2, schemaBeq s s2 = true → s = s2
  | [], [], _ => rfl
  | (n, t) :: r, (n2, t2) :: r2, h => by
    simp only [schemaBeq, Bool.and_eq_true, beq_iff_eq] at h
    rw [h.1.1, tyBeq_eq t t2 h.1.2, schemaBeq_eq r r2 h.2]
  | [], (_, _) :: _, h => by simp [schemaBeq] at h
  | (_, _) :: _, [], h => by simp [schemaBeq] at h
end

mutual
theorem tyBeq_refl : ∀ t, tyBeq t t = true
  | .int => by simp [tyBeq]
  | .str => by simp [tyBeq]
  | .bool => by simp [tyBeq]
  | .dt => by simp [tyBeq]
  | .enum vals => by simp [tyBeq]
  | .embedded s => by simp [tyBeq, schemaBeq_refl s]
  | .listOf t => by simp [tyBeq, tyBeq_refl t]
  | .dictOf k v => by simp [tyBeq, tyBeq_refl k, tyBeq_refl v]
theorem schemaBeq_refl : ∀ s, schemaBeq s s = true
  | [] => by simp [schemaBeq]
  | (n, t) :: r => by simp [schemaBeq, tyBeq_refl t, schemaBeq_refl r]
end

/-! Reduction lemmas for the `Except` monad, used to evaluate the codec and
the store operations in proofs. -/

theorem exceptOkBind {ε α β : Type} (a : α) (f : α → Except ε β) :
    (Except.ok a : Except ε α) >>= f = f a := rfl

theorem exceptErrBind {ε α β : Type} (e : ε) (f : α → Except ε β) :
    (Except.error e : Except ε α) >>= f = Except.error e := rfl

theorem exceptMapOk {ε α β : Type} (g : α → β) (a : α) :
    (g <$> (Except.ok a : Except ε α)) = Except.ok (g a) := rfl

theorem exceptMapErr {ε α β : Type} (g : α → β) (e : ε) :
    (g <$> (Except.error e : Except ε α)) = Except.error e := rfl

/-! ## Round-trip: supporting lemmas -/

/-- For a non-container declared type, the `to_dict` loop body is just
`_unbuild` of the raw value. -/
theorem encodeField_nc (t : Ty) (v : Val) (hc : isContainerTy t = false) :
    encodeField t v = unbuild v := by
  cases t <;> simp_all [encodeField, isContainerTy]

/-- For a non-container declared type, the `from_dict` loop body is just
`_build` of the raw value. -/
theorem decodeField_nc (t : Ty) (v : Val) (hc : isContainerTy t = false) :
    decodeField t v = build t v := by
  cases t <;> simp_all [decodeField, isContainerTy]

/-- `_build` maps a raw `None` to `None` whatever the declared type: the
`value is None` short-circuit precedes every other branch. -/
theorem build_none (t : Ty) : build t Val.none = .ok Val.none := by
  cases t <;> simp [build]

/-- A binding whose name occurs nowhere in the schema does not affect the
`to_dict` loop (its `getattr` lookups skip the binding). -/
theorem toDictAux_shadow (s : List (String × Ty)) (n0 : String) (w : Val)
    (flds : List (String × Val)) (h : nameNotInSchema n0 s = true) :
    toDictAux Option.none s ((n0, w) :: flds) = toDictAux Option.none s flds := by
  induction s with
  | nil => simp [toDictAux]
  | cons p rest ih =>
    obtain ⟨n, t⟩ := p
    simp only [nameNotInSchema, List.all_cons, Bool.and_eq_true, bne_iff_ne,
      ne_eq] at h
    rw [toDictAux, toDictAux]
    have hne : ¬(n0 = n) := fun e => h.1 e.symm
    rw [lookupFieldSized, if_neg hne]
    have ih2 := ih (by simpa [nameNotInSchema] using h.2)
    cases hL : lookupFieldSized flds n with
    | none => simp [hL, selectTruthy, dataclassesFieldMem]
    | some sub =>
      obtain ⟨v, hv⟩ := sub
      simp only [hL]
      cases hE : encodeField t v with
      | error e => simp [hE, exceptErrBind, selectTruthy, dataclassesFieldMem]
      | ok item => simp [hE, exceptOkBind, ih2, selectTruthy, dataclassesFieldMem]

/-- A bag entry whose key is a string occurring nowhere in the schema does
not affect the `from_dict` loop. -/
theorem fromDictAux_shadow (s : List (String × Ty)) (n0 : String) (w : Val)
    (data : List (Val × Val)) (h : nameNotInSchema n0 s = true) :
    fromDictAux s ((Val.str n0, w) :: data) = fromDictAux s data := by
  induction s with
  | nil => simp [fromDictAux]
  | cons p rest ih =>
    obtain ⟨n, t⟩ := p
    simp only [nameNotInSchema, List.all_cons, Bool.and_eq_true, bne_iff_ne,
      ne_eq] at h
    rw [fromDictAux, fromDictAux]
    have hne : valIsStrKey (Val.str n0) n = false := by
      simp [valIsStrKey]
      exact fun e => h.1 e.symm
    rw [bagLookupSized, if_neg (by simp [hne])]
    have ih2 := ih (by simpa [nameNotInSchema] using h.2)
    cases hL : bagLookupSized data n with
    | none => simp [hL, ih2]
    | some sub =>
      obtain ⟨v, hv⟩ := sub
      simp only [hL]
      cases hD : decodeField t v with
      | error e => simp [hD, exceptErrBind]
      | ok item => simp [hD, exceptOkBind, ih2]

theorem valIsNoneB_true (v : Val) (h : valIsNoneB v = true) : v = Val.none := by
  cases v <;> simp_all [valIsNoneB]

/-- For a non-container declared type, `conformsField` on a non-`None` value
is exactly `conformsV`. -/
theorem conformsField_eq_conformsV (t : Ty) (v : Val)
    (hc : isContainerTy t = false) (hv : valIsNoneB v = false) :
    conformsField t v = conformsV t v := by
  cases t <;> cases v <;> simp_all [conformsField, conformsV, isContainerTy, valIsNoneB]

theorem conformsV_int_inv (v : Val) (h : conformsV .int v = true) :
    ∃ n, v = Val.int n := by
  cases v <;> simp_all [conformsV]

theorem conformsV_str_inv (v : Val) (h : conformsV .str v = true) :
    ∃ s, v = Val.str s := by
  cases v <;> simp_all [conformsV]

theorem conformsV_bool_inv (v : Val) (h : conformsV .bool v = true) :
    ∃ b, v = Val.bool b := by
  cases v <;> simp_all [conformsV]

theorem conformsV_dt_inv (v : Val) (h : conformsV .dt v = true) :
    ∃ d, v = Val.dt d ∧ d.isValid = true := by
  cases v <;> simp_all [conformsV]

theorem conformsV_enum_inv (vals : List Int) (v : Val)
    (h : conformsV (.enum vals) v = true) :
    ∃ n, v = Val.enum vals n ∧ vals.contains n = true := by
  cases v <;> simp_all [conformsV]

theorem conformsV_embedded_inv (s : List (String × Ty)) (v : Val)
    (h : conformsV (.embedded s) v = true) :
    ∃ flds, v = Val.record s flds ∧ schemaNodupNames s = true ∧
      conformsF s flds = true := by
  cases v with
  | record s2 flds =>
    simp only [conformsV, Bool.and_eq_true] at h
    obtain ⟨⟨hb, hn⟩, hf⟩ := h
    obtain rfl := schemaBeq_eq s2 s hb
    exact ⟨flds, rfl, hn, hf⟩
  | none => simp [conformsV] at h
  | int n => simp [conformsV] at h
  | str s => simp [conformsV] at h
  | bool b => simp [conformsV] at h
  | dt d => simp [conformsV] at h
  | enum vals n => simp [conformsV] at h
  | list xs => simp [conformsV] at h
  | dict es => simp [conformsV] at h

/-! ## Round-trip: the main induction

One strong induction on a size measure proves the encode/decode inverse
property simultaneously for values, optional container elements, fields,
list elements, dict items and whole field lists. -/

theorem rtMain : ∀ N : Nat,
    (∀ t v, sizeOf t + 2 * sizeOf v < N → isContainerTy t = false →
      conformsV t v = true →
      ∃ e, unbuild v = .ok e ∧ build t e = .ok v) ∧
    (∀ t v, sizeOf t + 2 * sizeOf v + 1 < N → isContainerTy t = false →
      conformsOptV t v = true →
      ∃ e, unbuild v = .ok e ∧ build t e = .ok v) ∧
    (∀ t v, sizeOf t + 2 * sizeOf v + 3 < N → conformsField t v = true →
      ∃ e, encodeField t v = .ok e ∧ decodeField t e = .ok v) ∧
    (∀ t xs, sizeOf t + 2 * sizeOf xs < N → isContainerTy t = false →
      conformsElems t xs = true →
      ∃ es, unbuildList xs = .ok es ∧ buildList t es = .ok xs) ∧
    (∀ kt vt es, sizeOf kt + sizeOf vt + 2 * sizeOf es < N →
      isContainerTy kt = false → isContainerTy vt = false →
      conformsPairs kt vt es = true →
      ∃ os, unbuildPairs es = .ok os ∧ buildPairs kt vt os = .ok es) ∧
    (∀ s flds, sizeOf s + 2 * sizeOf flds < N → schemaNodupNames s = true →
      conformsF s flds = true →
      ∃ bag, toDictAux Option.none s flds = .ok bag ∧
        fromDictAux s bag = .ok flds) := by
  intro N
  induction N with
  | zero =>
    refine ⟨?_, ?_, ?_, ?_, ?_, ?_⟩ <;> (intro _ _; try intro _) <;> omega
  | succ N ih =>
    obtain ⟨ihV, ihO, ihF, ihE, ihP, ihR⟩ := ih
    refine ⟨?_, ?_, ?_, ?_, ?_, ?_⟩
    · -- values
      intro t v hlt hc h
      cases t with
      | int =>
        obtain ⟨n, rfl⟩ := conformsV_int_inv v h
        exact ⟨.int n, by simp [unbuild], by simp [build, pyInt]⟩
      | str =>
        obtain ⟨s, rfl⟩ := conformsV_str_inv v h
        exact ⟨.str s, by simp [unbuild], by simp [build, pyStr]⟩
      | bool =>
        obtain ⟨b, rfl⟩ := conformsV_bool_inv v h
        exact ⟨.bool b, by simp [unbuild], by simp [build, pyTruthy]⟩
      | dt =>
        obtain ⟨d, rfl, hd⟩ := conformsV_dt_inv v h
        refine ⟨.dt d, by simp [unbuild], ?_⟩
        have htl : (pyStr (Val.dt d)).data = d.strChars := rfl
        simp [build, String.toList, htl, fromIsoChars_strChars d hd]
      | enum vals =>
        obtain ⟨n, rfl, hn⟩ := conformsV_enum_inv vals v h
        have hn2 : n ∈ vals := by simpa using hn
        exact ⟨.int n, by simp [unbuild], by simp [build, hn2]⟩
      | embedded s =>
        obtain ⟨flds, rfl, hnodup, hcf⟩ := conformsV_embedded_inv s v h
        have hb : sizeOf s + 2 * sizeOf flds < N := by simp at hlt; omega
        obtain ⟨bag, hT, hF⟩ := ihR s flds hb hnodup hcf
        exact ⟨.dict bag, by simp [unbuild, hT, exceptOkBind],
          by simp [build, hF, exceptOkBind]⟩
      | listOf t' => simp [isContainerTy] at hc
      | dictOf kt vt => simp [isContainerTy] at hc
    · -- optional elements
      intro t v hlt hc h
      cases hNone : valIsNoneB v with
      | true =>
        obtain rfl := valIsNoneB_true v hNone
        exact ⟨.none, by simp [unbuild], build_none t⟩
      | false =>
        rw [conformsOptV, hNone, Bool.false_or] at h
        exact ihV t v (by omega) hc h
    · -- fields
      intro t v hlt h
      cases hcont : isContainerTy t with
      | false =>
        rw [encodeField_nc t v hcont]
        cases hNone : valIsNoneB v with
        | true =>
          obtain rfl := valIsNoneB_true v hNone
          exact ⟨.none, by simp [unbuild],
            by rw [decodeField_nc _ _ hcont]; exact build_none t⟩
        | false =>
          rw [conformsField_eq_conformsV t v hcont hNone] at h
          obtain ⟨e, h1, h2⟩ := ihV t v (by omega) hcont h
          exact ⟨e, h1, by rw [decodeField_nc _ _ hcont]; exact h2⟩
      | true =>
        cases t with
        | listOf t' =>
          cases v with
          | list xs =>
            simp only [conformsField, Bool.and_eq_true, Bool.not_eq_true'] at h
            have hb : sizeOf t' + 2 * sizeOf xs < N := by simp at hlt; omega
            obtain ⟨es, hU, hB⟩ := ihE t' xs hb h.1 h.2
            exact ⟨.list es, by simp [encodeField, hU, exceptOkBind],
              by simp [decodeField, hB, exceptOkBind]⟩
          | none => simp [conformsField] at h
          | int n => simp [conformsField] at h
          | str s => simp [conformsField] at h
          | bool b => simp [conformsField] at h
          | dt d => simp [conformsField] at h
          | enum vals n => simp [conformsField] at h
          | record s2 flds => simp [conformsField] at h
          | dict es => simp [conformsField] at h
        | dictOf kt vt =>
          cases v with
          | dict es =>
            simp only [conformsField, Bool.and_eq_true, Bool.not_eq_true'] at h
            obtain ⟨⟨⟨hck, hcv⟩, _⟩, hp⟩ := h
            have hb : sizeOf kt + sizeOf vt + 2 * sizeOf es < N := by
              simp at hlt; omega
            obtain ⟨os, hU, hB⟩ := ihP kt vt es hb hck hcv hp
            exact ⟨.dict os, by simp [encodeField, hU, exceptOkBind],
              by simp [decodeField, hB, exceptOkBind]⟩
          | none => simp [conformsField] at h
          | int n => simp [conformsField] at h
          | str s => simp [conformsField] at h
          | bool b => simp [conformsField] at h
          | dt d => simp [conformsField] at h
          | enum vals n => simp [conformsField] at h
          | record s2 flds => simp [conformsField] at h
          | list xs => simp [conformsField] at h
        | int => simp [isContainerTy] at hcont
        | str => simp [isContainerTy] at hcont
        | bool => simp [isContainerTy] at hcont
        | dt => simp [isContainerTy] at hcont
        | enum vals => simp [isContainerTy] at hcont
        | embedded s => simp [isContainerTy] at hcont
    · -- list elements
      intro t xs hlt hc h
      cases xs with
      | nil => exact ⟨[], by simp [unbuildList], by simp [buildList]⟩
      | cons x rest =>
        simp only [conformsElems, Bool.and_eq_true] at h
        have hb1 : sizeOf t + 2 * sizeOf x + 1 < N := by simp at hlt; omega
        have hb2 : sizeOf t + 2 * sizeOf rest < N := by simp at hlt; omega
        obtain ⟨e, hU, hB⟩ := ihO t x hb1 hc h.1
        obtain ⟨es, hUs, hBs⟩ := ihE t rest hb2 hc h.2
        exact ⟨e :: es, by simp [unbuildList, hU, hUs, exceptOkBind],
          by simp [buildList, hB, hBs, exceptOkBind]⟩
    · -- dict items
      intro kt vt es hlt hck hcv h
      cases es with
      | nil => exact ⟨[], by simp [unbuildPairs], by simp [buildPairs]⟩
      | cons p rest =>
        obtain ⟨k, v⟩ := p
        simp only [conformsPairs, Bool.and_eq_true] at h
        obtain ⟨⟨hk, hv⟩, hrest⟩ := h
        have hb1 : sizeOf kt + 2 * sizeOf k + 1 < N := by simp at hlt; omega
        have hb2 : sizeOf vt + 2 * sizeOf v + 1 < N := by simp at hlt; omega
        have hb3 : sizeOf kt + sizeOf vt + 2 * sizeOf rest < N := by
          simp at hlt; omega
        obtain ⟨ek, hUk, hBk⟩ := ihO kt k hb1 hck hk
        obtain ⟨ev, hUv, hBv⟩ := ihO vt v hb2 hcv hv
        obtain ⟨os, hUs, hBs⟩ := ihP kt vt rest hb3 hck hcv hrest
        exact ⟨(ek, ev) :: os,
          by simp [unbuildPairs, hUk, hUv, hUs, exceptOkBind],
          by simp [buildPairs, hBk, hBv, hBs, exceptOkBind]⟩
    · -- whole field lists
      intro s flds hlt hn hf
      cases s with
      | nil =>
        cases flds with
        | nil => exact ⟨[], by simp [toDictAux], by simp [fromDictAux]⟩
        | cons q frest => simp [conformsF] at hf
      | cons p rest =>
        obtain ⟨n, t⟩ := p
        cases flds with
        | nil => simp [conformsF] at hf
        | cons q frest =>
          obtain ⟨n2, v⟩ := q
          simp only [conformsF, Bool.and_eq_true, beq_iff_eq] at hf
          obtain ⟨⟨rfl, hfv⟩, hfrest⟩ := hf
          simp only [schemaNodupNames, Bool.and_eq_true] at hn
          have hb1 : sizeOf t + 2 * sizeOf v + 3 < N := by simp at hlt; omega
          have hb2 : sizeOf rest + 2 * sizeOf frest < N := by simp at hlt; omega
          obtain ⟨e, hE, hD⟩ := ihF t v hb1 hfv
          obtain ⟨bagR, hT, hF⟩ := ihR rest frest hb2 hn.2 hfrest
          refine ⟨(.str n2, e) :: bagR, ?_, ?_⟩
          · rw [toDictAux]
            rw [lookupFieldSized, if_pos rfl]
            rw [toDictAux_shadow rest n2 v frest hn.1]
            simp [hE, hT, exceptOkBind, selectTruthy, dataclassesFieldMem]
          · rw [fromDictAux]
            rw [bagLookupSized, if_pos (by simp [valIsStrKey])]
            rw [fromDictAux_shadow rest n2 e bagR hn.1]
            simp [hD, hF, exceptOkBind]

/-- C3 (amended): for every declared record kind whose `List`/`Dict` fields
have non-container element types, and every valid instance (container fields
holding actual lists/dicts, whose elements may be `None`),
`from_dict (to_dict r) = r` field-by-field — including nested embedded
records, typed sequences, typed mappings, enums and datetime fields. -/
theorem c3_roundTrip (s : List (String × Ty)) (flds : List (String × Val))
    (h : conformsV (.embedded s) (.record s flds) = true) :
    metaRoundTrip s (.record s flds) = .ok (.record s flds) := by
  simp only [conformsV, Bool.and_eq_true] at h
  obtain ⟨⟨_, hn⟩, hf⟩ := h
  obtain ⟨bag, hT, hF⟩ :=
    (rtMain (sizeOf s + 2 * sizeOf flds + 1)).2.2.2.2.2 s flds (by omega) hn hf
  rw [metaRoundTrip, metaToDict]
  simp [hT, hF, metaFromDict, exceptOkBind]

/-- Witness for C3: the round-trip law evaluated on a concrete record with
an embedded record, a typed sequence, a typed mapping, an enum and a
datetime field. -/
theorem c3_roundTrip_witness :
    metaRoundTrip c3WitnessSchema c3WitnessRecord = .ok c3WitnessRecord := by
  have h : conformsV (.embedded c3WitnessSchema) c3WitnessRecord = true := by
    simp [c3WitnessSchema, c3WitnessRecord, conformsV, conformsF, conformsField,
      conformsOptV, conformsElems, conformsPairs, valIsNoneB, isContainerTy,
      schemaBeq, tyBeq, schemaNodupNames, nameNotInSchema, dictKeysUnique,
      keyNotIn, valBeq, PyDateTime.isValid]
  exact c3_roundTrip c3WitnessSchema _ h

/-- Counterexample for C3 as stated: a kind declaring a sequence-of-sequences
field (`xs : List[List[int]]`).  `to_dict` encodes it, but `from_dict` hits
`issubclass(List[int], EmbeddedDocument)`, which raises `TypeError` for a
subscripted generic, so the round-trip errors instead of returning the
record. -/
theorem c3_nested_container_counterexample :
    metaRoundTrip [("xs", .listOf (.listOf .int))]
      (.record [("xs", .listOf (.listOf .int))] [("xs", .list [.list [.int 1]])]) =
      .error .typeError ∧
    metaRoundTrip [("xs", .listOf (.listOf .int))]
      (.record [("xs", .listOf (.listOf .int))] [("xs", .list [.list [.int 1]])]) ≠
      .ok (.record [("xs", .listOf (.listOf .int))] [("xs", .list [.list [.int 1]])]) := by
  constructor
  · simp [exceptOkBind, exceptErrBind, exceptMapOk, exceptMapErr,
      metaRoundTrip, metaToDict, metaFromDict, toDictAux, fromDictAux,
      lookupFieldSized, bagLookupSized, encodeField, decodeField, unbuild, build,
      unbuildList, buildList, selectTruthy, dataclassesFieldMem, valIsStrKey]
  · intro hcontra
    rw [show metaRoundTrip [("xs", .listOf (.listOf .int))]
      (.record [("xs", .listOf (.listOf .int))] [("xs", .list [.list [.int 1]])]) =
      .error .typeError from by
        simp [exceptOkBind, exceptErrBind, exceptMapOk, exceptMapErr,
          metaRoundTrip, metaToDict, metaFromDict, toDictAux, fromDictAux,
          lookupFieldSized, bagLookupSized, encodeField, decodeField, unbuild,
          build, unbuildList, buildList, selectTruthy, dataclassesFieldMem,
          valIsStrKey]] at hcontra
    exact Except.noConfusion hcontra

/-- C7 (amended): for scalar, enum, datetime and embedded-record field types
a raw `None` decodes to `None` without error (both at the `from_dict` loop
level and for a whole one-field bag); for `List`/`Dict` fields the loop
iterates the raw value before `_build`'s `None` check can fire, so `None`
raises instead (see `c7_none_list_counterexample`). -/
theorem c7_decode_none (n : String) (t : Ty) (hc : isContainerTy t = false) :
    decodeField t Val.none = .ok Val.none ∧
    metaFromDict [(n, t)] [(.str n, Val.none)] =
      .ok (.record [(n, t)] [(n, Val.none)]) := by
  have h1 : decodeField t Val.none = .ok Val.none := by
    rw [decodeField_nc t _ hc]; exact build_none t
  refine ⟨h1, ?_⟩
  rw [metaFromDict, fromDictAux]
  rw [bagLookupSized, if_pos (by simp [valIsStrKey])]
  simp [h1, fromDictAux, exceptOkBind]

/-- Witness for C7 (amended) at a concrete scalar field type. -/
theorem c7_decode_none_witness :
    decodeField .int Val.none = .ok Val.none ∧
    metaFromDict [("a", .int)] [(.str "a", Val.none)] =
      .ok (.record [("a", .int)] [("a", Val.none)]) :=
  c7_decode_none "a" .int (by simp [isContainerTy])

/-- Counterexample for C7 as stated: decoding the raw value `None` at a
sequence-of(int) field raises `TypeError` (the list comprehension iterates
`None`), instead of yielding `None`. -/
theorem c7_none_list_counterexample :
    metaFromDict [("xs", .listOf .int)] [(.str "xs", Val.none)] =
      .error .typeError ∧
    decodeField (.listOf .int) Val.none = .error .typeError := by
  constructor
  · simp [exceptOkBind, exceptErrBind, metaFromDict, fromDictAux,
      bagLookupSized, decodeField, valIsStrKey]
  · simp [decodeField]

/-- C9 (code bug): with a non-empty `select_fields`, `to_dict` emits an
*empty* bag instead of the selected fields.  The skip test
`if select_fields and field not in select_fields` names `field` — the
`dataclasses.field` function imported at module top — rather than the loop
variable `field_name`; a function object never equals a string, so every
declared field is skipped.  The claim expects `{"a": 1}` for
`select_fields=["a"]`, and even listing every field still yields `{}`. -/
theorem c9_select_fields_bug :
    metaToDict [("a", .int), ("b", .str)]
      (.record [("a", .int), ("b", .str)] [("a", .int 1), ("b", .str "x")])
      (some ["a"]) = .ok [] ∧
    metaToDict [("a", .int), ("b", .str)]
      (.record [("a", .int), ("b", .str)] [("a", .int 1), ("b", .str "x")])
      (some ["a", "b"]) = .ok [] ∧
    metaToDict [("a", .int), ("b", .str)]
      (.record [("a", .int), ("b", .str)] [("a", .int 1), ("b", .str "x")])
      Option.none =
      .ok [(.str "a", .int 1), (.str "b", .str "x")] := by
  refine ⟨?_, ?_, ?_⟩ <;>
    simp [exceptOkBind, metaToDict, toDictAux, selectTruthy, dataclassesFieldMem,
      lookupFieldSized, encodeField, unbuild]

/-- C2 (code bug): compiling `name__startswith` with value `"ab"` yields the
single predicate `(name, "startswith", "ab")` — a predicate carrying the
literal `startswith` operator — not the two range predicates the claim
describes, because `callable` is tested on the suffix string.  For contrast,
the second conjunct evaluates the never-reached `_starts_with_operator` on
the same arguments: even it would produce the dot-joined field name
`n.a.m.e`, since it joins over a string. -/
theorem c2_startswith_bug :
    buildFilter [] "name__startswith" (.str "ab") =
      .ok [("name", "startswith", .str "ab")] ∧
    startsWithOperator "name" (.str "ab") =
      [("n.a.m.e", ">=", .str "ab"), ("n.a.m.e", "<=", .str "ab�")] := by
  constructor
  · rfl
  · rfl

/-- C6: lookup-key compilation fails with `UnsupportedFormatException`
exactly when the key has an unknown operator suffix or more than one
suffix; it fails with `ValidationError` exactly when that is not the case
and the field path is dot-nested with an undeclared leading segment
(operator validation runs first, so it takes precedence); every other key
compiles successfully. -/
theorem c6_filter_errors (fields : List String) (key : String) (value : Val)
    (fieldChars : List Char) (extra : List (List Char))
    (hsplit : splitDunder key.toList = fieldChars :: extra) :
    ((∃ msg, buildFilter fields key value = .error (.unsupportedFormat msg)) ↔
      (multiSuffixKey extra || unknownOpKey extra) = true) ∧
    ((∃ msg, buildFilter fields key value = .error (.validation msg)) ↔
      (!(multiSuffixKey extra || unknownOpKey extra) &&
        nestedUndeclared fields fieldChars) = true) ∧
    ((∃ l, buildFilter fields key value = .ok l) ↔
      (!(multiSuffixKey extra || unknownOpKey extra) &&
        !(nestedUndeclared fields fieldChars)) = true) := by
  rw [buildFilter, hsplit]
  cases extra with
  | nil =>
    simp only [multiSuffixKey, unknownOpKey, nestedUndeclared]
    cases hdot : splitDot fieldChars with
    | nil => simp [exceptOkBind]
    | cons p0 rest =>
      cases rest with
      | nil => simp [exceptOkBind]
      | cons r1 rrest =>
        by_cases hmem : (String.mk p0) ∈ fields <;>
          simp [exceptOkBind, hmem]
  | cons e1 erest =>
    cases erest with
    | nil =>
      by_cases hop : lookupOperatorNames.contains (String.mk e1) = true
      · simp only [multiSuffixKey, unknownOpKey, nestedUndeclared, hop]
        cases hdot : splitDot fieldChars with
        | nil => simp [exceptOkBind, hop]
        | cons p0 rest =>
          cases rest with
          | nil => simp [exceptOkBind, hop]
          | cons r1 rrest =>
            by_cases hmem : (String.mk p0) ∈ fields <;>
              simp [exceptOkBind, hop, hmem]
      · simp [multiSuffixKey, unknownOpKey, nestedUndeclared, hop,
          exceptErrBind, Bool.not_eq_true] at hop ⊢
        simp [hop]
    | cons e2 errest => simp [multiSuffixKey, unknownOpKey, exceptErrBind]

/-- Witness for C6: the undeclared nested path `bogus.sub` on a kind whose
only declared field is `name` fails with `ValidationError`. -/
theorem c6_filter_errors_witness :
    ∃ msg, buildFilter ["name"] "bogus.sub" (.int 1) = .error (.validation msg) :=
  ((c6_filter_errors ["name"] "bogus.sub" (.int 1)
    "bogus.sub".toList [] (by rfl)).2.1).mpr (by rfl)

/-- C10: a lookup key whose field path has no dot, with no operator suffix
or a single known one, compiles to one `(fieldPath, operator, value)`
predicate for *every* declared-field table — the undeclared-field check
applies only to dot-nested paths. -/
theorem c10_single_segment (fields : List String) (key : String) (value : Val)
    (fieldChars : List Char) (extra : List (List Char))
    (hsplit : splitDunder key.toList = fieldChars :: extra)
    (hnodot : splitDot fieldChars = [fieldChars])
    (hop : extra = [] ∨
      ∃ op, extra = [op] ∧ lookupOperatorNames.contains (String.mk op) = true) :
    buildFilter fields key value =
      .ok [(String.mk fieldChars, opOfSuffix extra, value)] := by
  rcases hop with rfl | ⟨op, rfl, hopc⟩
  · rw [buildFilter, hsplit]
    simp [exceptOkBind, hnodot, opOfSuffix]
  · rw [buildFilter, hsplit]
    simp [exceptOkBind, hnodot, hopc, opOfSuffix]
    intro hmem
    exact absurd (by simpa using hopc) hmem

/-- Witness for C10: `undeclared__gt` compiles against a table declaring
only `other`, producing the single predicate with the raw suffix. -/
theorem c10_single_segment_witness :
    buildFilter ["other"] "undeclared__gt" (.int 5) =
      .ok [("undeclared", "gt", .int 5)] :=
  c10_single_segment ["other"] "undeclared__gt" (.int 5)
    "undeclared".toList ["gt".toList] (by rfl) (by rfl)
    (Or.inr ⟨"gt".toList, rfl, by rfl⟩)

/-- C1 (code bug): `id__in=[1,2,3]` with the direct filter
`status="active"` yields only the single record matching the *first*
combination instead of the three matching records.  `current_query = query`
aliases one query object that `add_filter` mutates in place, so the second
combination's query demands `id=1 AND id=2` (and the third
`id=1 AND id=2 AND id=3`), which no scalar property satisfies; the claim's
expected stream `[c1e1, c1e3, c1e2]` is not produced. -/
theorem c1_cross_product_bug :
    managerQuery c1Mgr c1DB
      [("id__in", .list [.int 1, .int 2, .int 3]), ("status", .str "active")] =
      .ok [c1e1] ∧
    (.ok [c1e1] : Except Err (List Entity)) ≠ .ok [c1e1, c1e3, c1e2] := by
  constructor
  · rfl
  · intro hcontra
    simp at hcontra

/-! ### Lemmas about keys and decoded results -/

theorem foldl_max_ge_init (db : List Entity) (a : Int) :
    a ≤ db.foldl (fun acc x => max acc x.id) a := by
  induction db generalizing a with
  | nil => simp
  | cons x rest ih =>
    simp only [List.foldl_cons]
    exact le_trans (le_max_left a x.id) (ih (max a x.id))

theorem foldl_max_le : ∀ (db : List Entity) (a : Int) (e : Entity), e ∈ db →
    e.id ≤ db.foldl (fun acc x => max acc x.id) a := by
  intro db
  induction db with
  | nil => intro a e he; cases he
  | cons x rest ih =>
    intro a e he
    simp only [List.foldl_cons]
    rcases List.mem_cons.mp he with rfl | hmem
    · exact le_trans (le_max_right a e.id) (foldl_max_ge_init rest (max a e.id))
    · exact ih (max a x.id) e hmem

/-- A freshly allocated id is strictly larger than every stored id. -/
theorem allocateId_gt (db : List Entity) (e : Entity) (he : e ∈ db) :
    e.id < allocateId db := by
  have := foldl_max_le db 0 e he
  rw [allocateId]
  omega

/-- A freshly allocated id is positive (in particular truthy). -/
theorem allocateId_pos (db : List Entity) : 1 ≤ allocateId db := by
  have := foldl_max_ge_init db 0
  rw [allocateId]
  omega

theorem clientGet_some (db : List Entity) (key : String × Int) (e : Entity)
    (h : clientGet db key = some e) :
    e ∈ db ∧ e.kind = key.1 ∧ e.id = key.2 := by
  have hm := List.mem_of_find?_eq_some h
  have hp := List.find?_some h
  simp only [Bool.and_eq_true, beq_iff_eq] at hp
  exact ⟨hm, hp.1, hp.2⟩

theorem clientGet_eq_none (db : List Entity) (key : String × Int)
    (h : ∀ e ∈ db, ¬(e.kind = key.1 ∧ e.id = key.2)) :
    clientGet db key = Option.none := by
  cases hfind : clientGet db key with
  | none => rfl
  | some e =>
    obtain ⟨hm, hk, hi⟩ := clientGet_some db key e hfind
    exact absurd ⟨hk, hi⟩ (h e hm)

/-- A lookup by a freshly allocated key always misses. -/
theorem clientGet_allocate_none (db : List Entity) (kind : String) :
    clientGet db (kind, allocateId db) = Option.none := by
  apply clientGet_eq_none
  intro e he hcontra
  have := allocateId_gt db e he
  omega

/-- A successfully decoded entity is a document instance (a record of the
manager's schema), hence truthy. -/
theorem fromEntity_ok_record (m : Mgr) (e : Entity) (v : Val)
    (h : fromEntity m e = .ok v) : ∃ flds, v = Val.record m.schema flds := by
  rw [fromEntity, metaFromDict] at h
  cases hf : fromDictAux m.schema
      (if (lookupPropBag e.props m.pkField).isSome then e.props
       else e.props ++ [(Val.str m.pkField, Val.int e.id)]) with
  | error err => rw [hf] at h; exact absurd h (by simp [exceptErrBind])
  | ok flds =>
    rw [hf] at h
    simp only [exceptOkBind] at h
    exact ⟨flds, by injection h with h2; exact h2.symm⟩

theorem mapM_ok_forall (f : Entity → Except Err Val) :
    ∀ (l : List Entity) (out : List Val), l.mapM f = .ok out →
      ∀ x ∈ out, ∃ a, f a = .ok x := by
  intro l
  induction l with
  | nil =>
    intro out h x hx
    simp only [List.mapM_nil] at h
    injection h with h2
    subst h2
    cases hx
  | cons a rest ih =>
    intro out h x hx
    rw [List.mapM_cons] at h
    cases hfa : f a with
    | error err => rw [hfa] at h; exact absurd h (by simp [exceptErrBind])
    | ok b =>
      rw [hfa] at h
      cases hrest : rest.mapM f with
      | error err =>
        rw [hrest] at h
        exact absurd h (by simp [exceptOkBind, exceptErrBind])
      | ok bs =>
        rw [hrest] at h
        simp only [exceptOkBind] at h
        injection h with h2
        subst h2
        rcases List.mem_cons.mp hx with rfl | hmem
        · exact ⟨a, hfa⟩
        · exact ih bs hrest x hmem

/-- C4: `get` fetches by key when the primary-key field is among the
kwargs, raising `DoesNotExist` (carrying the kind and the key) when no
stored record has that key, and handing back the decoded stored record
otherwise; without the primary key it delegates to `filter`, raising
`DoesNotExist` on zero matches and `MultipleObjectsFound` on more than one
(both carrying the kind and the kwargs), and returning the single match
otherwise.  The well-formedness hypothesis says no stored record of the
kind has id 0 — true of every store this layer populates, since
`build_key` never keys a falsy id. -/
theorem c4_get_semantics (m : Mgr) (db : List Entity)
    (kwargs : List (String × Val))
    (hwf : ∀ e ∈ db, e.kind = m.kind → e.id ≠ 0) :
    (∀ n : Int, lookupName kwargs m.pkField = some (.int n) →
      ((¬ ∃ e ∈ db, e.kind = m.kind ∧ e.id = n) →
        managerGet m db kwargs = .error (.doesNotExist m.kind (.pk (.int n)))) ∧
      (∀ entity, clientGet db (m.kind, n) = some entity →
        managerGet m db kwargs = fromEntity m entity)) ∧
    (lookupName kwargs m.pkField = Option.none →
      ∀ objs, managerFilter m db kwargs = .ok objs →
        (objs = [] →
          managerGet m db kwargs =
            .error (.doesNotExist m.kind (.kwargs kwargs))) ∧
        (2 ≤ objs.length →
          managerGet m db kwargs =
            .error (.multipleObjectsFound m.kind (.kwargs kwargs))) ∧
        (∀ x, objs = [x] → managerGet m db kwargs = .ok x)) := by
  constructor
  · intro n hpk
    by_cases hn : n = 0
    · subst hn
      constructor
      · intro _
        simp [managerGet, hpk, buildKey, pyTruthy, clientGet_allocate_none]
      · intro entity hent
        obtain ⟨hm, hk, hi⟩ := clientGet_some db (m.kind, 0) entity hent
        exact absurd hi (hwf entity hm hk)
    · have ht : pyTruthy (Val.int n) = true := by simp [pyTruthy, hn]
      cases hget : clientGet db (m.kind, n) with
      | none =>
        constructor
        · intro _
          simp [managerGet, hpk, buildKey, ht, pyInt, exceptOkBind, hget]
        · intro entity hent
          cases hent
      | some entity =>
        constructor
        · intro habs
          obtain ⟨hm, hk, hi⟩ := clientGet_some db (m.kind, n) entity hget
          exact absurd ⟨entity, hm, hk, hi⟩ habs
        · intro entity2 hent2
          injection hent2 with h2
          subst h2
          simp [managerGet, hpk, buildKey, ht, pyInt, exceptOkBind, hget]
  · intro hnone objs hfil
    refine ⟨?_, ?_, ?_⟩
    · intro h0
      subst h0
      simp [managerGet, hnone, hfil, getOne]
    · intro hlen
      match objs, hlen, hfil with
      | a :: b :: rest, _, hfil =>
        simp [managerGet, hnone, hfil, getOne]
    · intro x hx
      subst hx
      have hx_rec : ∃ flds, x = Val.record m.schema flds := by
        rw [managerFilter] at hfil
        cases hq : managerQuery m db kwargs with
        | error e => rw [hq] at hfil; exact absurd hfil (by simp [exceptErrBind])
        | ok entities =>
          rw [hq] at hfil
          simp only [exceptOkBind] at hfil
          obtain ⟨a, hfa⟩ := mapM_ok_forall (fromEntity m) entities [x] hfil x
            (List.mem_singleton.mpr rfl)
          exact fromEntity_ok_record m a x hfa
      obtain ⟨flds, rfl⟩ := hx_rec
      simp [managerGet, hnone, hfil, getOne, pyTruthy]

/-- Witness for C4: `get(id=42)` on an empty store raises `DoesNotExist`
carrying the kind and the key. -/
theorem c4_get_semantics_witness :
    managerGet ⟨[("id", .int)], "id", "K"⟩ [] [("id", .int 42)] =
      .error (.doesNotExist "K" (.pk (.int 42))) :=
  (((c4_get_semantics ⟨[("id", .int)], "id", "K"⟩ [] [("id", .int 42)]
    (by intro e he; cases he)).1 42 (by rfl)).1) (by rintro ⟨e, he, -⟩; cases he)

theorem lookupName_setFieldList (name : String) (v : Val) :
    ∀ flds, lookupName (setFieldList name v flds) name = some v := by
  intro flds
  induction flds with
  | nil => simp [setFieldList, lookupName]
  | cons p rest ih =>
    obtain ⟨n, w⟩ := p
    by_cases h : n = name <;> simp [setFieldList, h, lookupName, ih]

theorem objPk_setField (m : Mgr) (s : List (String × Ty))
    (flds : List (String × Val)) (v : Val) :
    objPk m (setField m v (.record s flds)) = v := by
  simp [setField, objPk, lookupName_setFieldList]

/-- C8 (amended): after every successful `create`, the in-memory record's
primary key is populated (truthy); if the record's pk was falsy before the
call (`None` — or `0`, which Python truthiness conflates with it), a fresh
store-allocated identifier (distinct from every stored id) is written back
before `create` returns; if it was truthy, it is preserved. -/
theorem c8_create_pk (m : Mgr) (db : List Entity) (obj obj2 : Val)
    (db2 : List Entity) (h : managerCreate m db obj = .ok (obj2, db2)) :
    pyTruthy (objPk m obj2) = true ∧
    (pyTruthy (objPk m obj) = false →
      objPk m obj2 = .int (allocateId db) ∧ ∀ e ∈ db, e.id < allocateId db) ∧
    (pyTruthy (objPk m obj) = true → objPk m obj2 = objPk m obj) := by
  rw [managerCreate, toEntity, buildKey] at h
  cases hT : pyTruthy (objPk m obj) with
  | true =>
    rw [hT] at h
    simp only [if_true] at h
    cases hInt : pyInt (objPk m obj) with
    | error e => rw [hInt] at h; exact absurd h (by simp [exceptErrBind])
    | ok n =>
      rw [hInt] at h
      simp only [exceptOkBind, hT, if_true, Bool.true_eq_false] at h
      cases hBag : metaToDict m.schema obj Option.none with
      | error e => rw [hBag] at h; exact absurd h (by simp [exceptErrBind])
      | ok bag =>
        rw [hBag] at h
        simp [exceptOkBind, hT] at h
        obtain ⟨hobj, -⟩ := h
        subst hobj
        refine ⟨hT, ?_, ?_⟩
        · intro hf
          simp [hT] at hf
        · intro _
          rfl
  | false =>
    rw [hT] at h
    simp only [Bool.false_eq_true, if_false, exceptOkBind] at h
    cases obj with
    | record s flds =>
      have hset : objPk m (setField m (.int (allocateId db)) (.record s flds)) =
          .int (allocateId db) := objPk_setField m s flds _
      cases hBag : metaToDict m.schema
          (setField m (.int (allocateId db)) (.record s flds)) Option.none with
      | error e => rw [hBag] at h; exact absurd h (by simp [exceptErrBind])
      | ok bag =>
        rw [hBag] at h
        have htr : pyTruthy (objPk m
            (setField m (.int (allocateId db)) (.record s flds))) = true := by
          rw [hset]
          have := allocateId_pos db
          simp [pyTruthy]
          omega
        simp [exceptOkBind, htr] at h
        obtain ⟨hobj, -⟩ := h
        subst hobj
        refine ⟨htr, fun _ => ⟨hset, fun e he => allocateId_gt db e he⟩, ?_⟩
        intro ht
        simp [hT] at ht
    | none =>
      exact absurd h (by simp [setField, metaToDict, exceptErrBind])
    | int n => exact absurd h (by simp [setField, metaToDict, exceptErrBind])
    | str s => exact absurd h (by simp [setField, metaToDict, exceptErrBind])
    | bool b => exact absurd h (by simp [setField, metaToDict, exceptErrBind])
    | dt d => exact absurd h (by simp [setField, metaToDict, exceptErrBind])
    | enum vals n =>
      exact absurd h (by simp [setField, metaToDict, exceptErrBind])
    | list xs => exact absurd h (by simp [setField, metaToDict, exceptErrBind])
    | dict es => exact absurd h (by simp [setField, metaToDict, exceptErrBind])

/-- Counterexample for C8 as stated: a record whose primary key is `0` has
a primary-key value, but `build_key` tests `if pk:` and `to_entity` tests
`if not obj.pk:`, so the falsy `0` is treated as absent — `create` on an
empty store allocates id `1` and overwrites the record's pk with it instead
of preserving `0`. -/
theorem c8_zero_pk_counterexample :
    (managerCreate ⟨[("id", .int)], "id", "K"⟩ []
      (.record [("id", .int)] [("id", .int 0)])).map
        (fun r => objPk ⟨[("id", .int)], "id", "K"⟩ r.1) = .ok (.int 1) ∧
    Val.int 1 ≠ Val.int 0 := by
  constructor
  · simp [managerCreate, toEntity, buildKey, objPk, lookupName, pyTruthy,
      allocateId, setField, setFieldList, metaToDict, toDictAux,
      lookupFieldSized, encodeField, unbuild, selectTruthy, dataclassesFieldMem,
      clientPut, exceptOkBind, exceptMapOk, Except.map]
  · intro hcontra
    simp at hcontra

/-- Witness for C8 (amended): `create` of a record with the truthy pk `5`
returns a record whose pk is populated. -/
theorem c8_create_pk_witness :
    pyTruthy (objPk ⟨[("id", Ty.int)], "id", "K"⟩
      (Val.record [("id", Ty.int)] [("id", Val.int 5)])) = true :=
  (c8_create_pk ⟨[("id", Ty.int)], "id", "K"⟩ []
    (Val.record [("id", Ty.int)] [("id", Val.int 5)])
    (Val.record [("id", Ty.int)] [("id", Val.int 5)])
    [⟨"K", 5, [(Val.str "id", Val.int 5)]⟩]
    (by simp [managerCreate, toEntity, buildKey, objPk, lookupName, pyTruthy,
      pyInt, setField, setFieldList, metaToDict, toDictAux, lookupFieldSized,
      encodeField, unbuild, selectTruthy, dataclassesFieldMem, clientPut,
      exceptOkBind])).1

theorem chunks_nil {α : Type} (n : Nat) : chunks n ([] : List α) = [] := by
  unfold chunks
  rfl

theorem chunks_cons {α : Type} (n : Nat) (hn : n ≠ 0) (a : α) (as : List α) :
    chunks n (a :: as) =
      (a :: as).take n :: chunks n ((a :: as).drop n) := by
  have hcond : ¬ ((a :: as).isEmpty || n == 0) = true := by
    simp only [List.isEmpty_cons, Bool.false_or, beq_iff_eq]
    exact hn
  conv_lhs => rw [chunks.eq_def]
  rw [dif_neg hcond]

/-- `Manager.query()` with no kwargs compiles no filters: it streams every
entity of the kind. -/
theorem managerQuery_nil (m : Mgr) (db : List Entity) :
    managerQuery m db [] = .ok (runQuery db ⟨m.kind, []⟩) := rfl

theorem chunks_join {α : Type} (n : Nat) (hn : n ≠ 0) :
    ∀ l : List α, (chunks n l).flatten = l := by
  have H : ∀ (N : Nat) (l : List α), l.length ≤ N → (chunks n l).flatten = l := by
    intro N
    induction N with
    | zero =>
      intro l hl
      have he : l = [] := List.length_eq_zero.mp (by omega)
      subst he
      rw [chunks_nil]
      rfl
    | succ N ih =>
      intro l hl
      cases l with
      | nil => rw [chunks_nil]; rfl
      | cons a as =>
        rw [chunks_cons n hn a as, List.flatten_cons,
          ih _ (by rw [List.length_drop]; simp at hl ⊢; omega),
          List.take_append_drop]
  exact fun l => H l.length l le_rfl

theorem chunks_map_length_500 {α : Type} :
    ∀ l : List α, (chunks 500 l).map List.length =
      List.replicate (l.length / 500) 500 ++
      (if l.length % 500 = 0 then [] else [l.length % 500]) := by
  have H : ∀ (N : Nat) (l : List α), l.length ≤ N →
      (chunks 500 l).map List.length =
        List.replicate (l.length / 500) 500 ++
        (if l.length % 500 = 0 then [] else [l.length % 500]) := by
    intro N
    induction N with
    | zero =>
      intro l hl
      have he : l = [] := List.length_eq_zero.mp (by omega)
      subst he
      rw [chunks_nil]
      simp
    | succ N ih =>
      intro l hl
      cases l with
      | nil => rw [chunks_nil]; simp
      | cons a as =>
        rw [chunks_cons 500 (by omega) a as, List.map_cons]
        by_cases hbig : 500 ≤ (a :: as).length
        · rw [ih _ (by rw [List.length_drop]; simp at hl ⊢; omega),
            List.length_drop, List.length_take]
          have e0 : min 500 (a :: as).length = 500 := by omega
          have e1 : (a :: as).length / 500 = ((a :: as).length - 500) / 500 + 1 := by
            omega
          have e2 : ((a :: as).length - 500) % 500 = (a :: as).length % 500 := by
            omega
          rw [e0, e1, e2, List.replicate_succ]
          rfl
        · have hlen : (a :: as).length < 500 := by omega
          have hpos : 0 < (a :: as).length := by simp
          rw [List.drop_eq_nil_of_le (by omega), chunks_nil, List.length_take]
          have e0 : min 500 (a :: as).length = (a :: as).length := by omega
          have e1 : (a :: as).length / 500 = 0 := by omega
          have e2 : (a :: as).length % 500 = (a :: as).length := by omega
          rw [e0, e1, e2, if_neg (by omega)]
          rfl
  exact fun l => H l.length l le_rfl

theorem chunks_length_500 {α : Type} (l : List α) :
    (chunks 500 l).length = (l.length + 499) / 500 := by
  have h := congrArg List.length (chunks_map_length_500 l)
  rw [List.length_map, List.length_append, List.length_replicate] at h
  by_cases hm : l.length % 500 = 0 <;> simp [hm] at h <;> omega

theorem chunks_all_le_500 {α : Type} (l : List α) :
    ∀ c ∈ chunks 500 l, c.length ≤ 500 := by
  intro c hc
  have hmem : c.length ∈ (chunks 500 l).map List.length :=
    List.mem_map_of_mem List.length hc
  rw [chunks_map_length_500] at hmem
  rcases List.mem_append.mp hmem with h1 | h2
  · rw [List.eq_of_mem_replicate h1]
  · by_cases hm : l.length % 500 = 0
    · rw [hm] at h2
      simp at h2
    · rw [if_neg hm] at h2
      have := List.mem_singleton.mp h2
      omega

theorem mem_foldl_deleteMulti :
    ∀ (batches : List (List (String × Int))) (db : List Entity) (e : Entity),
      e ∈ batches.foldl clientDeleteMulti db ↔
        e ∈ db ∧ ∀ c ∈ batches, c.contains (entityKey e) = false := by
  intro batches
  induction batches with
  | nil => simp
  | cons c rest ih =>
    intro db e
    simp only [List.foldl_cons]
    rw [ih]
    simp only [clientDeleteMulti, List.mem_filter, Bool.not_eq_true',
      List.mem_cons]
    constructor
    · rintro ⟨⟨hdb, hc⟩, hrest⟩
      exact ⟨hdb, fun d hd => by rcases hd with rfl | hd; exact hc; exact hrest d hd⟩
    · rintro ⟨hdb, hall⟩
      exact ⟨⟨hdb, hall c (Or.inl rfl)⟩, fun d hd => hall d (Or.inr hd)⟩

/-- C5: `delete()` with no key bulk-deletes every record of the kind: it
returns via the batched path, the underlying query matches exactly the
kind's records, the run issues `⌈n/500⌉` `delete_multi` calls of at most
`MAX_ITEMS_PER_OPERATIONS = 500` keys each whose concatenation is exactly
the key list of the kind's `n` records, the resulting store holds no
record of the kind — and on a kind holding 1200 records the batch sizes
are exactly 500, 500, 200. -/
theorem c5_delete_all (m : Mgr) (db : List Entity) :
    managerDelete m db Val.none =
      .ok (deleteAllBatches m db, deleteAllResult m db) ∧
    runQuery db ⟨m.kind, []⟩ = db.filter (fun e => e.kind == m.kind) ∧
    (deleteAllBatches m db).length =
      ((db.filter (fun e => e.kind == m.kind)).length + 499) / 500 ∧
    (∀ c ∈ deleteAllBatches m db, c.length ≤ MAX_ITEMS_PER_OPERATIONS) ∧
    (deleteAllBatches m db).flatten =
      (db.filter (fun e => e.kind == m.kind)).map entityKey ∧
    (deleteAllResult m db).filter (fun e => e.kind == m.kind) = [] ∧
    (deleteAllBatches c5Mgr c5DB).map List.length = [500, 500, 200] := by
  have hq : runQuery db ⟨m.kind, []⟩ = db.filter (fun e => e.kind == m.kind) := by
    simp [runQuery]
  have hflat : (deleteAllBatches m db).flatten =
      (db.filter (fun e => e.kind == m.kind)).map entityKey := by
    rw [deleteAllBatches, MAX_ITEMS_PER_OPERATIONS,
      chunks_join 500 (by omega), hq]
  refine ⟨rfl, hq, ?_, ?_, hflat, ?_, ?_⟩
  · rw [deleteAllBatches, MAX_ITEMS_PER_OPERATIONS, chunks_length_500,
      List.length_map, hq]
  · intro c hc
    rw [deleteAllBatches, MAX_ITEMS_PER_OPERATIONS] at hc
    exact chunks_all_le_500 _ c hc
  · rw [List.filter_eq_nil_iff]
    intro e he hkind
    rw [deleteAllResult] at he
    obtain ⟨hdb, hall⟩ := (mem_foldl_deleteMulti _ _ _).mp he
    have hkey : entityKey e ∈ (deleteAllBatches m db).flatten := by
      rw [hflat]
      exact List.mem_map_of_mem entityKey (List.mem_filter.mpr ⟨hdb, hkind⟩)
    obtain ⟨c, hc, hec⟩ := List.mem_flatten.mp hkey
    have hcon := hall c hc
    simp at hcon
    exact hcon hec
  · have hfilter : c5DB.filter (fun e => e.kind == c5Mgr.kind) = c5DB := by
      apply List.filter_eq_self.mpr
      intro e he
      obtain ⟨i, -, rfl⟩ := List.mem_map.mp he
      rfl
    have hqc : runQuery c5DB ⟨c5Mgr.kind, []⟩ = c5DB := by
      simpa [runQuery] using hfilter
    have hlen : ((runQuery c5DB ⟨c5Mgr.kind, []⟩).map entityKey).length = 1200 := by
      rw [List.length_map, hqc, c5DB, List.length_map, List.length_range]
    rw [deleteAllBatches, MAX_ITEMS_PER_OPERATIONS, chunks_map_length_500, hlen]
    decide
